import Mathlib

/-!
# Market-depth bookmap: snapshot merge engine and price band

A shallow embedding of `frontend/src/components/Bookmap.jsx`:

* `pctBand`         the ±10% band helper (line 14);
* `fetchHist`       the bulk historical import (lines 83-121), applied to the
                    decoded body of a successful response;
* `fetchDepth`      the live update (lines 123-222), applied to the decoded
                    body of a successful response;
* `toggleLockMode`  the lock button (line 340) with the lock-mode effect
                    (lines 54-81) and the symbol effect (lines 277-291) it
                    makes React run again;

of `frontend/src/heatmap/dimensions.js` (`fullBarWidth`, `positionsBox`) and of
`frontend/src/heatmap/render.js` (the size bubbles of `draw`,
`priceValueBuilder`).

Numbers: prices are exact rationals; timestamps (epoch milliseconds), times,
quantities and trade sizes are integers of either sign.  `Math.floor(t / 1000)`
on an integer `t` is the floor division `t / 1000` of `Int` (see
`floor_div_thousand`).  The mutable references of the component (`history`,
`lastPrice`, `initialDone`), the `lockMode` state and the
`autoscaleInfoProvider` option of the heat-map series are the fields of one
`Session` record that every operation passes on.

Left out, because nothing below reads them: the display state `latest`, the
`loading` and `error` flags, the visible time range and `scrollToRealTime`.
The early returns on a missing chart or a failed request leave every
reference untouched; the functions below describe the remaining path.
-/

namespace Bookmap

/-! ## Data model -/

/-- One resting order-book entry of a snapshot: `{price, quantity, side}`.
The side is the string sent by the feed; the code compares it with `'BID'`. -/
structure PriceLevel where
  price : ℚ
  quantity : ℤ
  side : String
  deriving DecidableEq, Repr

/-- A snapshot as decoded from the feed.  `levels`, `last_price` and
`last_size` may be missing (`none`); `levels` may be an empty array. -/
structure RawSnapshot where
  timestamp : ℤ
  levels : Option (List PriceLevel)
  last_price : Option ℚ
  last_size : Option ℤ
  deriving DecidableEq, Repr

/-- A price sub-range with its signed depth. -/
structure Cell where
  low : ℚ
  high : ℚ
  amount : ℤ
  deriving DecidableEq, Repr

/-- The unit stored in `history.current`. -/
structure Bar where
  time : ℤ
  cells : List Cell
  lastPrice : Option ℚ
  lastSize : Option ℤ
  deriving DecidableEq, Repr

/-- The value handed to `autoscaleInfoProvider` as `priceRange`. -/
structure PriceBand where
  minValue : ℚ
  maxValue : ℚ
  deriving DecidableEq, Repr

/-- The mutable state of one chart: the refs `history`, `lastPrice`,
`initialDone`, the React state `lockMode` (0 = auto, 1 = manual) and the
`autoscaleInfoProvider` option currently installed on the heat-map series
(`none` for `undefined`). -/
structure Session where
  history : List Bar
  lastPrice : Option ℚ
  initialDone : Bool
  lockMode : ℕ
  provider : Option PriceBand
  deriving DecidableEq, Repr

/-- The state right after the chart is created: empty refs, auto mode, no
provider (`autoscaleInfoProvider: undefined` in `addCustomSeries`). -/
def Session.init : Session :=
  { history := [], lastPrice := none, initialDone := false, lockMode := 0, provider := none }

/-! ## `pctBand` -/

/-- Line 14:
`p => ({ minValue: Math.max(0, Math.min(p - 0.05, p * 0.9)),
         maxValue: Math.max(p + 0.05, p * 1.1) })`. -/
def pctBand (p : ℚ) : PriceBand :=
  { minValue := max 0 (min (p - 0.05) (p * 0.9))
    maxValue := max (p + 0.05) (p * 1.1) }

/-! ## Helpers shared by the two imports -/

/-- The sign factor `(l.side === 'BID' ? 1 : -1)`. -/
def sideSign (side : String) : ℤ := if side = "BID" then 1 else -1

/-- The comparator order of `history.current.sort((a, b) => a.time - b.time)`:
`a` may stay in front of `b` when `a.time - b.time <= 0`. -/
def timeLe (a b : Bar) : Prop := a.time ≤ b.time

instance : DecidableRel timeLe := fun a b => inferInstanceAs (Decidable (a.time ≤ b.time))

/-- The call `history.current.sort((a, b) => a.time - b.time)`: a stable sort
by ascending time. -/
def sortByTime (h : List Bar) : List Bar := h.insertionSort timeLe

/-- JavaScript `x || 0` on an optional integer: `undefined` and `0` give `0`. -/
def orZero : Option ℤ → ℤ
  | none => 0
  | some t => if t = 0 then 0 else t

/-- Truthiness of an optional integer, as in `cells.length > 0 || d.last_size`:
missing values and `0` are falsy. -/
def truthy : Option ℤ → Bool
  | none => false
  | some n => decide (n ≠ 0)

/-- JavaScript `a ?? b` on optional values: `b` when `a` is `null`/`undefined`. -/
def nullish {α : Type} : Option α → Option α → Option α
  | some a, _ => some a
  | none, b => b

/-! ## `fetchHist` -/

/-- The cell built from one level in `fetchHist` (lines 104-108). -/
def histCell (l : PriceLevel) : Cell :=
  { low := l.price, high := l.price + 0.01, amount := l.quantity * sideSign l.side }

/-- The filter `s => s.levels?.length` (line 93): keeps the snapshots whose
`levels` is present and non-empty. -/
def hasLevels (s : RawSnapshot) : Bool :=
  match s.levels with
  | none => false
  | some ls => decide (ls.length ≠ 0)

/-- The `.map` callback of lines 94-112 run over the kept snapshots, threading
the captured variable `lastTime` from left to right. -/
def mapSnapshots (lastTime : ℤ) : List RawSnapshot → List Bar
  | [] => []
  | s :: rest =>
    let time0 := s.timestamp / 1000
    let time := if time0 ≤ lastTime then lastTime + 1 else time0
    { time := time
      cells := (s.levels.getD []).map histCell
      lastPrice := s.last_price
      lastSize := s.last_size } :: mapSnapshots time rest

/-- Lines 90-116 of `fetchHist` on the decoded `snapshots` array: filter, map
with `lastTime` starting at `0`, sort, and store the result in `history`. -/
def fetchHist (st : Session) (snapshots : List RawSnapshot) : Session :=
  { st with history := sortByTime (mapSnapshots 0 (snapshots.filter hasLevels)) }

/-! ## `fetchDepth` -/

/-- The cell built from one level in `fetchDepth` (lines 154-158). -/
def liveCell (l : PriceLevel) : Cell :=
  { low := l.price, high := l.price + 0.01, amount := l.quantity * sideSign l.side }

/-- Lines 152-158: the cells of the levels with `quantity > 0`. -/
def liveCells (levels : List PriceLevel) : List Cell :=
  (levels.filter (fun l => decide (0 < l.quantity))).map liveCell

/-- Line 132: `Math.floor(d.timestamp / 1000)`. -/
def currentTimeOf (d : RawSnapshot) : ℤ := d.timestamp / 1000

/-- Line 133: `history.current.at(-1)?.time || 0`. -/
def lastTimeOf (history : List Bar) : ℤ := orZero (history.getLast?.map Bar.time)

/-- Line 141: `Math.max(currentTime, lastTime + 1)`. -/
def resolvedTime (history : List Bar) (d : RawSnapshot) : ℤ :=
  max (currentTimeOf d) (lastTimeOf history + 1)

/-- Lines 165-173: the data point pushed onto the history; the trade fields
are attached only when both are present. -/
def dataPoint (ts : ℤ) (cells : List Cell) (d : RawSnapshot) : Bar :=
  match d.last_price, d.last_size with
  | some p, some s => { time := ts, cells := cells, lastPrice := some p, lastSize := some s }
  | _, _ => { time := ts, cells := cells, lastPrice := none, lastSize := none }

/-- Line 161: `cells.length > 0 || d.last_size`. -/
def appends (cells : List Cell) (d : RawSnapshot) : Bool :=
  decide (0 < cells.length) || truthy d.last_size

/-- Lines 129-213 of `fetchDepth` on the decoded body `d`. -/
def fetchDepth (st : Session) (d : RawSnapshot) : Session :=
  match d.levels with
  | none => st
  | some levels =>
    let currentTime := currentTimeOf d
    let lastTime := lastTimeOf st.history
    if currentTime < lastTime then st
    else
      let ts := max currentTime (lastTime + 1)
      let lastPrice := nullish d.last_price st.lastPrice
      let cells := liveCells levels
      let history1 :=
        if appends cells d then
          st.history.filter (fun h => decide (h.time ≤ ts)) ++ [dataPoint ts cells d]
        else st.history
      let history2 := sortByTime history1
      -- initial zoom, once
      let zoom := !st.initialDone && lastPrice.isSome
      let provider1 := if zoom then lastPrice.map pctBand else st.provider
      let initialDone1 := if zoom then true else st.initialDone
      -- every-tick override in mode 0
      let provider2 :=
        if st.lockMode = 0 ∧ lastPrice.isSome then lastPrice.map pctBand else provider1
      { history := history2
        lastPrice := lastPrice
        initialDone := initialDone1
        lockMode := st.lockMode
        provider := provider2 }

/-- A bulk import followed by live updates, in order. -/
def runSession (st : Session) (snapshots : List RawSnapshot) (updates : List RawSnapshot) :
    Session :=
  updates.foldl fetchDepth (fetchHist st snapshots)

/-! ## Sample data used by the worked examples -/

/-- A bar at `time` without cells or trade data. -/
def emptyBar (time : ℤ) : Bar := { time := time, cells := [], lastPrice := none, lastSize := none }

/-- A session whose history is the single bar at time 1000. -/
def storeAt1000 : Session := { Session.init with history := [emptyBar 1000] }

/-- A live body with one bid level of positive quantity and no trade data. -/
def bidUpdate (timestamp : ℤ) : RawSnapshot :=
  { timestamp := timestamp
    levels := some [{ price := 10, quantity := 5, side := "BID" }]
    last_price := none
    last_size := none }

/-- The historical snapshot of the end-to-end scenario. -/
def scenarioHist : RawSnapshot :=
  { timestamp := 1000000
    levels := some [{ price := 10, quantity := 5, side := "BID" }]
    last_price := some 10
    last_size := some 2 }

/-- The live update of the end-to-end scenario. -/
def scenarioLive : RawSnapshot :=
  { timestamp := 1002000
    levels := some [{ price := 10, quantity := 7, side := "BID" },
      { price := 10.01, quantity := 3, side := "ASK" }]
    last_price := some 10.01
    last_size := some 1 }

/-- A live body whose only level has quantity 0 and whose trade size is 0. -/
def zeroSizeUpdate : RawSnapshot :=
  { timestamp := 1001000
    levels := some [{ price := 10, quantity := 0, side := "BID" }]
    last_price := some 10
    last_size := some 0 }

/-- Strictly earlier: the relation of invariant I1 between a bar and the next. -/
def timeLt (a b : Bar) : Prop := a.time < b.time

instance : DecidableRel timeLt := fun a b => inferInstanceAs (Decidable (a.time < b.time))

/-- Invariant I1 of the history: every bar is strictly earlier than the next. -/
def I1 (history : List Bar) : Prop := List.Chain' timeLt history

instance : IsTrans Bar timeLt := ⟨fun _ _ _ h₁ h₂ => lt_trans h₁ h₂⟩

instance : IsTrans Bar timeLe := ⟨fun _ _ _ h₁ h₂ => le_trans h₁ h₂⟩

instance : IsTotal Bar timeLe := ⟨fun a b => le_total a.time b.time⟩

/-- The stored bars that survive the defensive filter `h.time <= ts` of line
163, in the order the sort of line 178 leaves them. -/
def keptBars (history : List Bar) (ts : ℤ) : List Bar :=
  sortByTime (history.filter (fun h => decide (h.time ≤ ts)))

/-! ## The specification's wording of the bulk import times -/

/-- The time the specification gives the bar of snapshot `s` when the
previously emitted bar has time `prev`: the floored timestamp if that exceeds
`prev`, and `prev + 1` otherwise. -/
def specBarTime (prev : ℤ) (s : RawSnapshot) : ℤ :=
  if prev < s.timestamp / 1000 then s.timestamp / 1000 else prev + 1

/-- The time of the bar emitted before position `i` of `bars`, `start` when
`i` is the first position. -/
def previousTime (start : ℤ) (bars : List Bar) : ℕ → ℤ
  | 0 => start
  | i + 1 => ((bars.get? i).map Bar.time).getD start

/-! ## The mode toggle and the effects of the component -/

/-- The click handler of line 340: `setLockMode(mode => mode === 0 ? 1 : 0)`. -/
def setLockMode (st : Session) : Session :=
  { st with lockMode := if st.lockMode = 0 then 1 else 0 }

/-- The lock-mode effect of lines 54-81 (dependencies `[lockMode]`): in mode 0
with a cached price the band is installed, in mode 1 the provider is removed.
The `handleScale` options it also sets are not part of the session. -/
def lockModeEffect (st : Session) : Session :=
  if st.lockMode = 0 ∧ st.lastPrice.isSome then
    { st with provider := st.lastPrice.map pctBand }
  else if st.lockMode = 1 then { st with provider := none }
  else st

/-- The synchronous part of the symbol effect, lines 277-291 (dependencies
`[symbol, autoRefresh, refreshRate, fetchHist, fetchDepth]`): nothing happens
for an empty symbol, otherwise the three references are reset. -/
def symbolEffect (symbol : String) (st : Session) : Session :=
  if symbol = "" then st
  else { st with history := [], lastPrice := none, initialDone := false }

/-- A click on the lock button followed by the effects whose dependencies
changed, in the order they are declared: the lock-mode effect (`lockMode`
changed), then the symbol effect, because `fetchDepth` is rebuilt by
`useCallback(..., [apiBaseUrl, lockMode])` (line 222) and is listed among the
dependencies of the symbol effect (line 298). -/
def toggleLockMode (symbol : String) (st : Session) : Session :=
  symbolEffect symbol (lockModeEffect (setLockMode st))

/-! ## `heatmap/dimensions.js` -/

/-- JavaScript `Math.round` over exact arithmetic: the nearest integer, halves
rounded up. -/
def jsRound (q : ℚ) : ℤ := ⌊q + 1 / 2⌋

/-- The object `{position, length}` returned by the helpers. -/
structure BitmapPositionLength where
  position : ℤ
  length : ℤ
  deriving DecidableEq, Repr

/-- Lines 18-28 of `dimensions.js`. -/
def fullBarWidth (xMedia halfBarSpacingMedia horizontalPixelRatio : ℚ) :
    BitmapPositionLength :=
  let fullWidthLeftMedia := xMedia - halfBarSpacingMedia
  let fullWidthRightMedia := xMedia + halfBarSpacingMedia
  let fullWidthLeftBitmap := jsRound (fullWidthLeftMedia * horizontalPixelRatio)
  let fullWidthRightBitmap := jsRound (fullWidthRightMedia * horizontalPixelRatio)
  let fullWidthBitmap := fullWidthRightBitmap - fullWidthLeftBitmap
  { position := fullWidthLeftBitmap, length := fullWidthBitmap }

/-- Lines 55-62 of `dimensions.js`. -/
def positionsBox (position1Media position2Media pixelRatio : ℚ) : BitmapPositionLength :=
  let scaledPosition1 := jsRound (pixelRatio * position1Media)
  let scaledPosition2 := jsRound (pixelRatio * position2Media)
  { position := min scaledPosition1 scaledPosition2
    length := |scaledPosition2 - scaledPosition1| + 1 }

/-! ## `heatmap/render.js` -/

/-- The `originalData` of a bar handed to the renderer; `cells` may be
missing. -/
structure HeatMapData where
  cells : Option (List Cell)
  lastPrice : Option ℚ
  lastSize : Option ℤ
  deriving DecidableEq, Repr

/-- One entry of `bars`: its horizontal centre and its `originalData`. -/
structure RenderBar where
  x : ℚ
  originalData : Option HeatMapData
  deriving DecidableEq, Repr

/-- A history bar as the renderer receives it. -/
def Bar.toRenderBar (x : ℚ) (b : Bar) : RenderBar :=
  { x := x
    originalData := some { cells := some b.cells, lastPrice := b.lastPrice, lastSize := b.lastSize } }

/-- A drawn size bubble: the index of its bar, the size stamped on it and the
price it is placed at. -/
structure Marker where
  index : ℕ
  lastSize : ℤ
  lastPrice : ℚ
  deriving DecidableEq, Repr

/-- The part of one loop iteration of `draw` that concerns the bubble (lines
33-35 and 78-99): the new value of `lastSizeDrawn` and the marker drawn, if
any.  `Number.isFinite` holds exactly for the values that are present. -/
def markerStep (i : ℕ) (bar : Option RenderBar) (lastSizeDrawn : Option ℤ) :
    Option ℤ × List Marker :=
  match bar.bind RenderBar.originalData with
  | none => (lastSizeDrawn, [])
  | some o =>
    match o.cells with
    | none => (lastSizeDrawn, [])
    | some _ =>
      match o.lastSize, o.lastPrice with
      | some s, some p =>
        if some s ≠ lastSizeDrawn then (some s, [{ index := i, lastSize := s, lastPrice := p }])
        else (lastSizeDrawn, [])
      | _, _ => (lastSizeDrawn, [])

/-- The loop `for (let i = from; i < to; i++)` of line 32, with `n` iterations
left, collecting the markers in drawing order. -/
def drawLoop (bars : List RenderBar) : ℕ → ℕ → Option ℤ → List Marker
  | _, 0, _ => []
  | i, n + 1, lastSizeDrawn =>
    (markerStep i (bars.get? i) lastSizeDrawn).2 ++
      drawLoop bars (i + 1) n (markerStep i (bars.get? i) lastSizeDrawn).1

/-- The markers drawn by one call of `draw` for the visible range
`[vFrom, vTo)`; `lastSizeDrawn` starts as `null` (line 30). -/
def drawMarkers (bars : List RenderBar) (vFrom vTo : ℕ) : List Marker :=
  drawLoop bars vFrom (vTo - vFrom) none

/-- The size of a bar that can get a bubble: its data and `cells` are present
and both trade fields are finite. -/
def markerCandidate (bar : RenderBar) : Option ℤ :=
  match bar.originalData with
  | none => none
  | some o =>
    match o.cells, o.lastSize, o.lastPrice with
    | some _, some s, some _ => some s
    | _, _, _ => none

/-- The sizes of the bars at the indices `i, ..., i + n - 1` that can get a
bubble, from left to right. -/
def candidateSizes (bars : List RenderBar) (i n : ℕ) : List ℤ :=
  (List.range' i n).filterMap (fun j => (bars.get? j).bind markerCandidate)

/-- The value of `lastSizeDrawn` after `n` iterations of the loop started at
index `i`. -/
def lastSizeDrawnAfter (bars : List RenderBar) : ℕ → ℕ → Option ℤ → Option ℤ
  | _, 0, lastSizeDrawn => lastSizeDrawn
  | i, n + 1, lastSizeDrawn =>
    lastSizeDrawnAfter bars (i + 1) n (markerStep i (bars.get? i) lastSizeDrawn).1

/-- The specification's rule for one bar: a bubble with the bar's size is
drawn when the bar carries both trade fields and its size differs from the
size of the most recently drawn bubble (`none` when there is none yet). -/
def specDrawnSize (candidate mostRecent : Option ℤ) : List ℤ :=
  match candidate with
  | none => []
  | some s => if some s ≠ mostRecent then [s] else []

/-- Runs of equal consecutive sizes collapsed, given the size of the most
recently drawn bubble: with none yet this is `List.destutter (· ≠ ·)`. -/
def collapseRuns (mostRecent : Option ℤ) (sizes : List ℤ) : List ℤ :=
  match mostRecent with
  | none => sizes.destutter (· ≠ ·)
  | some t => (sizes.destutter' (· ≠ ·) t).tail

/-- A rendered bar without cells that carries a trade at price 10 of the given
size. -/
def tradeBar (size : ℤ) : RenderBar :=
  Bar.toRenderBar 0 { time := 0, cells := [], lastPrice := some 10, lastSize := some size }

/-- The result of `priceValueBuilder`: `[NaN]` or `[low, high, mid]`. -/
inductive PriceValues where
  | nan : PriceValues
  | values (low high mid : ℚ) : PriceValues
  deriving DecidableEq, Repr

/-- One iteration of the loop of lines 117-120 on the pair `(low, high)`;
`none` stands for the start values `Infinity` and `-Infinity`, below which and
above which every price lies. -/
def priceLoopStep (acc : Option ℚ × Option ℚ) (c : Cell) : Option ℚ × Option ℚ :=
  ((match acc.1 with
    | none => some c.low
    | some low => if c.low < low then some c.low else some low),
   (match acc.2 with
    | none => some c.high
    | some high => if c.high > high then some c.high else some high))

/-- Lines 114-123 of `render.js`, on the `cells` of the bar `r`.  The last
case is not reached: after a non-empty loop both bounds are prices. -/
def priceValueBuilder (cells : Option (List Cell)) : PriceValues :=
  match cells with
  | none => PriceValues.nan
  | some [] => PriceValues.nan
  | some (c :: cs) =>
    match (c :: cs).foldl priceLoopStep (none, none) with
    | (some low, some high) => PriceValues.values low high (low + (high - high + low) / 2)
    | _ => PriceValues.nan

/-- A session with two stored bars, a cached price and the initial zoom done:
the end-to-end scenario run from a fresh chart. -/
def scenarioSession : Session := runSession Session.init [scenarioHist] [scenarioLive]

/-! ## General lemmas -/

/-- `Math.floor(t / 1000)` over the rationals is the integer floor division. -/
theorem floor_div_thousand (t : ℤ) : ⌊(t : ℚ) / 1000⌋ = t / 1000 := by
  have h := Rat.floor_intCast_div_natCast t 1000
  simpa using h

theorem orZero_some (t : ℤ) : orZero (some t) = t := by
  show (if t = 0 then 0 else t) = t
  split_ifs with h
  · exact h.symm
  · rfl

theorem lastTimeOf_nil : lastTimeOf [] = 0 := rfl

theorem lastTimeOf_append_singleton (h : List Bar) (b : Bar) :
    lastTimeOf (h ++ [b]) = b.time := by
  simp [lastTimeOf, orZero_some]

theorem I1_iff_pairwise (h : List Bar) : I1 h ↔ h.Pairwise timeLt :=
  List.chain'_iff_pairwise

theorem timeLe_of_timeLt {h : List Bar} (hp : h.Pairwise timeLt) : h.Pairwise timeLe :=
  hp.imp (fun hab => le_of_lt hab)

/-- In an ascending history no bar is later than `lastTimeOf`. -/
theorem time_le_lastTimeOf {h : List Bar} (hp : h.Pairwise timeLe) :
    ∀ b ∈ h, b.time ≤ lastTimeOf h := by
  induction h using List.reverseRecOn with
  | nil => intro b hb; simp at hb
  | append_singleton l a _ =>
    intro b hb
    rw [lastTimeOf_append_singleton]
    rw [List.pairwise_append] at hp
    rcases List.mem_append.1 hb with hl | ha
    · exact hp.2.2 b hl a (List.mem_singleton_self a)
    · rw [List.mem_singleton.1 ha]

/-- Sorting an ascending history changes nothing. -/
theorem sortByTime_of_sorted {h : List Bar} (hp : h.Pairwise timeLe) : sortByTime h = h :=
  List.Sorted.insertionSort_eq hp

theorem sortByTime_sorted (h : List Bar) : (sortByTime h).Pairwise timeLe :=
  List.sorted_insertionSort timeLe h

theorem mem_sortByTime {a : Bar} {h : List Bar} : a ∈ sortByTime h ↔ a ∈ h :=
  (List.perm_insertionSort timeLe h).mem_iff

theorem orderedInsert_append_last (a b : Bar) (hab : a.time ≤ b.time) (s : List Bar) :
    (s ++ [b]).orderedInsert timeLe a = s.orderedInsert timeLe a ++ [b] := by
  induction s with
  | nil => simp [List.orderedInsert, timeLe, hab]
  | cons c s ih =>
    by_cases hc : timeLe a c
    · simp [List.orderedInsert, hc]
    · have e : (c :: s) ++ [b] = c :: (s ++ [b]) := rfl
      rw [e, List.orderedInsert, if_neg hc, ih, List.orderedInsert, if_neg hc]
      rfl

/-- The stable sort leaves a pushed bar at the end when no bar is later. -/
theorem sortByTime_append_last (l : List Bar) (b : Bar) (hb : ∀ a ∈ l, a.time ≤ b.time) :
    sortByTime (l ++ [b]) = sortByTime l ++ [b] := by
  induction l with
  | nil => simp [sortByTime]
  | cons a l ih =>
    have hl : ∀ x ∈ l, x.time ≤ b.time := fun x hx => hb x (List.mem_cons_of_mem a hx)
    have h' : List.insertionSort timeLe (l ++ [b]) = List.insertionSort timeLe l ++ [b] := ih hl
    show List.orderedInsert timeLe a (List.insertionSort timeLe (l ++ [b])) =
      List.orderedInsert timeLe a (List.insertionSort timeLe l) ++ [b]
    rw [h']
    exact orderedInsert_append_last a b (hb a (List.mem_cons_self a l)) _

theorem keptBars_sorted (h : List Bar) (ts : ℤ) : (keptBars h ts).Pairwise timeLe :=
  sortByTime_sorted _

theorem keptBars_le (h : List Bar) (ts : ℤ) : ∀ a ∈ keptBars h ts, a.time ≤ ts := by
  intro a ha
  exact of_decide_eq_true (List.mem_filter.1 (mem_sortByTime.1 ha)).2

/-- On an ascending history the defensive filter keeps every bar. -/
theorem filter_resolvedTime_of_sorted {h : List Bar} (hp : h.Pairwise timeLe)
    (d : RawSnapshot) :
    h.filter (fun b => decide (b.time ≤ resolvedTime h d)) = h := by
  rw [List.filter_eq_self]
  intro b hb
  have h₁ := time_le_lastTimeOf hp b hb
  have h₂ : lastTimeOf h + 1 ≤ resolvedTime h d := le_max_right _ _
  exact decide_eq_true (by omega)

/-- On an ascending history filter and sort keep the history as it is. -/
theorem keptBars_of_sorted {h : List Bar} (hp : h.Pairwise timeLe) (d : RawSnapshot) :
    keptBars h (resolvedTime h d) = h := by
  unfold keptBars
  rw [filter_resolvedTime_of_sorted hp, sortByTime_of_sorted hp]

/-- Every bar emitted by the map is later than the incoming `lastTime`, and the
emitted bars are strictly ascending. -/
theorem mapSnapshots_ascending (lastTime : ℤ) (l : List RawSnapshot) :
    (∀ b ∈ mapSnapshots lastTime l, lastTime < b.time) ∧
      (mapSnapshots lastTime l).Pairwise timeLt := by
  induction l generalizing lastTime with
  | nil => simp [mapSnapshots]
  | cons s rest ih =>
    have hstep : lastTime <
        (if s.timestamp / 1000 ≤ lastTime then lastTime + 1 else s.timestamp / 1000) := by
      split_ifs with h
      · omega
      · omega
    obtain ⟨h₁, h₂⟩ := ih (if s.timestamp / 1000 ≤ lastTime then lastTime + 1 else s.timestamp / 1000)
    simp only [mapSnapshots]
    refine ⟨?_, ?_⟩
    · intro b hb
      rcases List.mem_cons.1 hb with rfl | hb
      · exact hstep
      · exact lt_trans hstep (h₁ b hb)
    · exact List.pairwise_cons.2 ⟨fun b hb => h₁ b hb, h₂⟩

/-- The history written by `fetchHist` is the mapped list itself: the final
sort moves nothing. -/
theorem fetchHist_history (st : Session) (snapshots : List RawSnapshot) :
    (fetchHist st snapshots).history = mapSnapshots 0 (snapshots.filter hasLevels) := by
  simp only [fetchHist]
  exact sortByTime_of_sorted (timeLe_of_timeLt (mapSnapshots_ascending 0 _).2)

theorem dataPoint_time (ts : ℤ) (cells : List Cell) (d : RawSnapshot) :
    (dataPoint ts cells d).time = ts := by
  unfold dataPoint
  split <;> rfl

theorem dataPoint_cells (ts : ℤ) (cells : List Cell) (d : RawSnapshot) :
    (dataPoint ts cells d).cells = cells := by
  unfold dataPoint
  split <;> rfl

/-- A body without `levels` is ignored (line 129). -/
theorem fetchDepth_no_levels (st : Session) (d : RawSnapshot) (hl : d.levels = none) :
    fetchDepth st d = st := by
  simp [fetchDepth, hl]

/-- A stale body is ignored (lines 136-138). -/
theorem fetchDepth_stale (st : Session) (d : RawSnapshot)
    (hs : currentTimeOf d < lastTimeOf st.history) : fetchDepth st d = st := by
  unfold fetchDepth
  split
  · rfl
  · simp [hs]

/-- The history after an accepted update, for any stored history. -/
theorem fetchDepth_history_accepted (st : Session) (d : RawSnapshot) (levels : List PriceLevel)
    (hl : d.levels = some levels) (hs : ¬ currentTimeOf d < lastTimeOf st.history) :
    (fetchDepth st d).history =
      sortByTime (if appends (liveCells levels) d then
        st.history.filter (fun h => decide (h.time ≤ resolvedTime st.history d)) ++
          [dataPoint (resolvedTime st.history d) (liveCells levels) d]
      else st.history) := by
  simp only [fetchDepth, hl, hs, if_false, resolvedTime]

/-- The cached trade price after an accepted update (line 149). -/
theorem fetchDepth_lastPrice_accepted (st : Session) (d : RawSnapshot)
    (levels : List PriceLevel) (hl : d.levels = some levels)
    (hs : ¬ currentTimeOf d < lastTimeOf st.history) :
    (fetchDepth st d).lastPrice = nullish d.last_price st.lastPrice := by
  simp only [fetchDepth, hl, hs, if_false]

/-- The provider installed after an accepted update (lines 181-213): the band
of the cached price in mode 0 or at the initial zoom, the old provider
otherwise. -/
theorem fetchDepth_provider_accepted (st : Session) (d : RawSnapshot)
    (levels : List PriceLevel) (hl : d.levels = some levels)
    (hs : ¬ currentTimeOf d < lastTimeOf st.history) :
    (fetchDepth st d).provider =
      if st.lockMode = 0 ∧ (nullish d.last_price st.lastPrice).isSome then
        (nullish d.last_price st.lastPrice).map pctBand
      else if (!st.initialDone && (nullish d.last_price st.lastPrice).isSome) then
        (nullish d.last_price st.lastPrice).map pctBand
      else st.provider := by
  simp only [fetchDepth, hl, hs, if_false]

/-- An accepted update that pushes, on any stored history: the kept bars,
followed by the new data point. -/
theorem fetchDepth_history_push_any (st : Session) (d : RawSnapshot)
    (levels : List PriceLevel) (hl : d.levels = some levels)
    (hs : ¬ currentTimeOf d < lastTimeOf st.history)
    (ha : appends (liveCells levels) d = true) :
    (fetchDepth st d).history =
      keptBars st.history (resolvedTime st.history d) ++
        [dataPoint (resolvedTime st.history d) (liveCells levels) d] := by
  rw [fetchDepth_history_accepted st d levels hl hs, if_pos ha]
  apply sortByTime_append_last
  intro a hmem
  rw [dataPoint_time]
  exact of_decide_eq_true (List.mem_filter.1 hmem).2

/-- An accepted update that does not push, on any stored history. -/
theorem fetchDepth_history_skip (st : Session) (d : RawSnapshot)
    (levels : List PriceLevel) (hl : d.levels = some levels)
    (hs : ¬ currentTimeOf d < lastTimeOf st.history)
    (ha : ¬ appends (liveCells levels) d = true) :
    (fetchDepth st d).history = sortByTime st.history := by
  rw [fetchDepth_history_accepted st d levels hl hs, if_neg ha]

/-- After a push the history is ascending, whatever it was before. -/
theorem fetchDepth_sorted_of_push (st : Session) (d : RawSnapshot)
    (levels : List PriceLevel) (hl : d.levels = some levels)
    (hs : ¬ currentTimeOf d < lastTimeOf st.history)
    (ha : appends (liveCells levels) d = true) :
    (fetchDepth st d).history.Pairwise timeLe := by
  rw [fetchDepth_history_push_any st d levels hl hs ha, List.pairwise_append]
  refine ⟨keptBars_sorted _ _, List.pairwise_singleton _ _, ?_⟩
  intro a ha' c hc
  rw [List.mem_singleton.1 hc]
  show a.time ≤ (dataPoint _ _ _).time
  rw [dataPoint_time]
  exact keptBars_le _ _ a ha'

/-- The history after an accepted update of an ascending history: the old
bars, followed by the new data point when one is pushed. -/
theorem fetchDepth_history_of_sorted (st : Session) (d : RawSnapshot)
    (levels : List PriceLevel) (hl : d.levels = some levels)
    (hs : ¬ currentTimeOf d < lastTimeOf st.history) (hp : st.history.Pairwise timeLe) :
    (fetchDepth st d).history =
      if appends (liveCells levels) d then
        st.history ++ [dataPoint (resolvedTime st.history d) (liveCells levels) d]
      else st.history := by
  by_cases ha : appends (liveCells levels) d = true
  · rw [if_pos ha, fetchDepth_history_push_any st d levels hl hs ha, keptBars_of_sorted hp]
  · rw [if_neg ha, fetchDepth_history_skip st d levels hl hs ha, sortByTime_of_sorted hp]

/-- Appending a bar later than `lastTimeOf` keeps a history strictly ascending. -/
theorem pairwise_append_later {h : List Bar} (hp : h.Pairwise timeLt) (b : Bar)
    (hb : lastTimeOf h < b.time) : (h ++ [b]).Pairwise timeLt := by
  rw [List.pairwise_append]
  refine ⟨hp, List.pairwise_singleton _ _, ?_⟩
  intro a ha c hc
  rw [List.mem_singleton.1 hc]
  exact lt_of_le_of_lt (time_le_lastTimeOf (timeLe_of_timeLt hp) a ha) hb

/-- One live update keeps the history strictly ascending. -/
theorem fetchDepth_pairwise (st : Session) (d : RawSnapshot)
    (hp : st.history.Pairwise timeLt) : (fetchDepth st d).history.Pairwise timeLt := by
  cases hl : d.levels with
  | none => rw [fetchDepth_no_levels st d hl]; exact hp
  | some levels =>
    by_cases hs : currentTimeOf d < lastTimeOf st.history
    · rw [fetchDepth_stale st d hs]; exact hp
    · rw [fetchDepth_history_of_sorted st d levels hl hs (timeLe_of_timeLt hp)]
      split_ifs
      · apply pairwise_append_later hp
        rw [dataPoint_time]
        have h₂ : lastTimeOf st.history + 1 ≤ resolvedTime st.history d := le_max_right _ _
        omega
      · exact hp

/-- Any sequence of live updates keeps the history strictly ascending. -/
theorem foldl_fetchDepth_pairwise (updates : List RawSnapshot) (st : Session)
    (hp : st.history.Pairwise timeLt) :
    (updates.foldl fetchDepth st).history.Pairwise timeLt := by
  induction updates generalizing st with
  | nil => exact hp
  | cons d rest ih => exact ih (fetchDepth st d) (fetchDepth_pairwise st d hp)

theorem fetchHist_pairwise (st : Session) (snapshots : List RawSnapshot) :
    (fetchHist st snapshots).history.Pairwise timeLt := by
  rw [fetchHist_history]
  exact (mapSnapshots_ascending 0 _).2

theorem lastTimeOf_of_getLast {h : List Bar} {last : Bar} (hlast : h.getLast? = some last) :
    lastTimeOf h = last.time := by
  simp [lastTimeOf, hlast, orZero_some]

/-- A level of positive quantity makes the cell list non-empty, so the data
point is pushed (line 161). -/
theorem appends_of_positive (levels : List PriceLevel) (d : RawSnapshot)
    (hq : ∃ l ∈ levels, 0 < l.quantity) : appends (liveCells levels) d = true := by
  obtain ⟨l, hl, hpos⟩ := hq
  have hmem : liveCell l ∈ liveCells levels :=
    List.mem_map_of_mem _ (List.mem_filter.2 ⟨hl, decide_eq_true hpos⟩)
  have hlen : 0 < (liveCells levels).length := List.length_pos_of_mem hmem
  simp [appends, hlen]

/-- An accepted update that pushes, on an ascending history. -/
theorem fetchDepth_history_push (st : Session) (d : RawSnapshot) (levels : List PriceLevel)
    (hl : d.levels = some levels) (hs : ¬ currentTimeOf d < lastTimeOf st.history)
    (hp : st.history.Pairwise timeLe) (ha : appends (liveCells levels) d = true) :
    (fetchDepth st d).history =
      st.history ++ [dataPoint (resolvedTime st.history d) (liveCells levels) d] := by
  rw [fetchDepth_history_of_sorted st d levels hl hs hp, if_pos ha]

/-- Two successive pushing updates with the same floored time `c`, later than
the last stored time: bars at `c` and `c + 1` after the kept bars. -/
theorem fetchDepth_twice (st : Session) (d₁ d₂ : RawSnapshot) (lv₁ lv₂ : List PriceLevel)
    (ht : currentTimeOf d₂ = currentTimeOf d₁)
    (hl₁ : d₁.levels = some lv₁) (hl₂ : d₂.levels = some lv₂)
    (ha₁ : appends (liveCells lv₁) d₁ = true) (ha₂ : appends (liveCells lv₂) d₂ = true)
    (hc : lastTimeOf st.history < currentTimeOf d₁) :
    (fetchDepth st d₁).history =
        keptBars st.history (currentTimeOf d₁) ++
          [dataPoint (currentTimeOf d₁) (liveCells lv₁) d₁] ∧
      (fetchDepth (fetchDepth st d₁) d₂).history =
        keptBars st.history (currentTimeOf d₁) ++
          [dataPoint (currentTimeOf d₁) (liveCells lv₁) d₁,
            dataPoint (currentTimeOf d₁ + 1) (liveCells lv₂) d₂] := by
  have hs₁ : ¬ currentTimeOf d₁ < lastTimeOf st.history := by omega
  have hr₁ : resolvedTime st.history d₁ = currentTimeOf d₁ := by
    unfold resolvedTime
    exact max_eq_left (by omega)
  have h₁ := fetchDepth_history_push_any st d₁ lv₁ hl₁ hs₁ ha₁
  have hp₁ := fetchDepth_sorted_of_push st d₁ lv₁ hl₁ hs₁ ha₁
  rw [hr₁] at h₁
  have hlast₁ : lastTimeOf (fetchDepth st d₁).history = currentTimeOf d₁ := by
    rw [h₁, lastTimeOf_append_singleton, dataPoint_time]
  have hs₂ : ¬ currentTimeOf d₂ < lastTimeOf (fetchDepth st d₁).history := by omega
  have hr₂ : resolvedTime (fetchDepth st d₁).history d₂ = currentTimeOf d₁ + 1 := by
    unfold resolvedTime
    rw [hlast₁, ht]
    exact max_eq_right (by omega)
  have h₂ := fetchDepth_history_push (fetchDepth st d₁) d₂ lv₂ hl₂ hs₂ hp₁ ha₂
  rw [hr₂, h₁] at h₂
  refine ⟨h₁, ?_⟩
  rw [h₂]
  simp

/-- On a strictly ascending history whose last time is below `ts`, the kept
bars are the whole history. -/
theorem keptBars_of_I1 {h : List Bar} (hI : I1 h) (ts : ℤ) (hts : lastTimeOf h ≤ ts) :
    keptBars h ts = h := by
  have hp := timeLe_of_timeLt ((I1_iff_pairwise _).1 hI)
  unfold keptBars
  have hf : h.filter (fun b => decide (b.time ≤ ts)) = h := by
    rw [List.filter_eq_self]
    intro b hb
    exact decide_eq_true (le_trans (time_le_lastTimeOf hp b hb) hts)
  rw [hf, sortByTime_of_sorted hp]

/-- Bodies whose floored time is below the last stored time change nothing,
however many arrive. -/
theorem foldl_fetchDepth_stale (more : List RawSnapshot) (st : Session)
    (hs : ∀ d ∈ more, currentTimeOf d < lastTimeOf st.history) :
    more.foldl fetchDepth st = st := by
  induction more with
  | nil => rfl
  | cons d rest ih =>
    have hd := fetchDepth_stale st d (hs d (List.mem_cons_self d rest))
    simp only [List.foldl_cons, hd]
    exact ih (fun x hx => hs x (List.mem_cons_of_mem d hx))

theorem mapSnapshots_length (lastTime : ℤ) (l : List RawSnapshot) :
    (mapSnapshots lastTime l).length = l.length := by
  induction l generalizing lastTime with
  | nil => rfl
  | cons s rest ih => simp [mapSnapshots, ih]

/-- Position by position, the map emits for the `i`-th kept snapshot a bar
with its cells and trade fields, at the time prescribed by `specBarTime`. -/
theorem mapSnapshots_get (lastTime : ℤ) (l : List RawSnapshot) (i : ℕ) (s : RawSnapshot)
    (hs : l.get? i = some s) :
    ∃ b, (mapSnapshots lastTime l).get? i = some b ∧
      b.time = specBarTime (previousTime lastTime (mapSnapshots lastTime l) i) s ∧
      b.cells = (s.levels.getD []).map histCell ∧
      b.lastPrice = s.last_price ∧ b.lastSize = s.last_size := by
  induction l generalizing lastTime i with
  | nil => simp at hs
  | cons s₀ rest ih =>
    have hbump : ∀ (t : ℤ) (x : RawSnapshot),
        (if x.timestamp / 1000 ≤ t then t + 1 else x.timestamp / 1000) = specBarTime t x := by
      intro t x
      unfold specBarTime
      split_ifs <;> omega
    cases i with
    | zero =>
      simp only [List.get?_cons_zero, Option.some.injEq] at hs
      subst hs
      exact ⟨_, rfl, hbump lastTime s₀, rfl, rfl, rfl⟩
    | succ j =>
      simp only [List.get?_cons_succ] at hs
      obtain ⟨b, hb, ht, hc, hp, hz⟩ :=
        ih (if s₀.timestamp / 1000 ≤ lastTime then lastTime + 1 else s₀.timestamp / 1000) j hs
      refine ⟨b, ?_, ?_, hc, hp, hz⟩
      · simpa [mapSnapshots] using hb
      · rw [ht]
        congr 1
        cases j with
        | zero => simp [previousTime, mapSnapshots]
        | succ k =>
          have hk : k < (mapSnapshots
              (if s₀.timestamp / 1000 ≤ lastTime then lastTime + 1 else s₀.timestamp / 1000)
              rest).length := by
            rw [mapSnapshots_length]
            have := (List.get?_eq_some.1 hs).1
            omega
          simp [previousTime, mapSnapshots, List.getElem?_eq_getElem hk]

theorem mapSnapshots_cells (lastTime : ℤ) (l : List RawSnapshot) :
    (mapSnapshots lastTime l).map Bar.cells =
      l.map (fun s => (s.levels.getD []).map histCell) := by
  induction l generalizing lastTime with
  | nil => rfl
  | cons s rest ih => simp [mapSnapshots, ih]

/-- Line 161 read as a condition on the data: the push happens when some level
has positive quantity or `last_size` is present and not zero. -/
theorem appends_iff (levels : List PriceLevel) (d : RawSnapshot) :
    appends (liveCells levels) d = true ↔
      (∃ l ∈ levels, 0 < l.quantity) ∨ ∃ n : ℤ, n ≠ 0 ∧ d.last_size = some n := by
  constructor
  · intro h
    unfold appends at h
    rcases Bool.or_eq_true_iff.1 h with h₁ | h₂
    · left
      have hpos : 0 < (liveCells levels).length := of_decide_eq_true h₁
      obtain ⟨c, hc⟩ := List.exists_mem_of_length_pos hpos
      obtain ⟨l, hl, _⟩ := List.mem_map.1 hc
      have := List.mem_filter.1 hl
      exact ⟨l, this.1, of_decide_eq_true this.2⟩
    · right
      cases hsz : d.last_size with
      | none => rw [hsz] at h₂; simp [truthy] at h₂
      | some n =>
        rw [hsz] at h₂
        exact ⟨n, by simpa [truthy] using h₂, rfl⟩
  · rintro (hq | ⟨n, hn, hsz⟩)
    · exact appends_of_positive levels d hq
    · simp [appends, truthy, hsz, hn]

/-! ## Claims -/

/-- C1 (monotonicity, I1): for every sequence of raw snapshots given to the
bulk import and every subsequent sequence of live updates, the history is
strictly ascending in time right after the import and after each live update
(each prefix `take k` of the updates), whatever the session was before. -/
theorem C1_monotonicity (st : Session) (snapshots updates : List RawSnapshot) :
    I1 (fetchHist st snapshots).history ∧
      ∀ k : ℕ, I1 (runSession st snapshots (updates.take k)).history := by
  refine ⟨(I1_iff_pairwise _).2 (fetchHist_pairwise st snapshots), fun k => ?_⟩
  exact (I1_iff_pairwise _).2
    (foldl_fetchDepth_pairwise (updates.take k) _ (fetchHist_pairwise st snapshots))

/-- C2 (stale rejection): for every session and every live body with a
`levels` field whose floored timestamp is strictly less than the time of the
last stored bar, `fetchDepth` returns the session as it was; in particular the
history is the same list of bars. -/
theorem C2_stale_rejection (st : Session) (d : RawSnapshot) (levels : List PriceLevel)
    (last : Bar) (_hl : d.levels = some levels) (hlast : st.history.getLast? = some last)
    (hs : currentTimeOf d < last.time) :
    (fetchDepth st d).history = st.history ∧ fetchDepth st d = st := by
  have h : fetchDepth st d = st := by
    apply fetchDepth_stale
    simpa [lastTimeOf, hlast, orZero_some] using hs
  exact ⟨by rw [h], h⟩

/-- C2 at the store ending at 1000 and a body stamped 999500 ms. -/
theorem C2_stale_rejection_witness :
    (fetchDepth storeAt1000 (bidUpdate 999500)).history = storeAt1000.history ∧
      fetchDepth storeAt1000 (bidUpdate 999500) = storeAt1000 :=
  C2_stale_rejection storeAt1000 (bidUpdate 999500) _ (emptyBar 1000) rfl rfl (by decide)

/-- C3, as stated, fails when the floored timestamp equals the last stored
time: from the store ending at 1000, two updates stamped 1000000 ms (floor
1000, one bid level of quantity 5 each) leave bars at 1000 and 1001 only; the
second update is rejected as stale and no bar at 1002 appears. -/
theorem C3_counterexample :
    storeAt1000.history.getLast? = some (emptyBar 1000) ∧
      (emptyBar 1000).time ≤ currentTimeOf (bidUpdate 1000000) ∧
      (fetchDepth storeAt1000 (bidUpdate 1000000)).history.map Bar.time = [1000, 1001] ∧
      (fetchDepth (fetchDepth storeAt1000 (bidUpdate 1000000)) (bidUpdate 1000000)).history.map
        Bar.time = [1000, 1001] := by
  decide

/-- C3 (forced separation, amended): for every store whose last bar has time
`L` and every timestamp whose floor `c` is strictly greater than `L`, two
successive live updates carrying that timestamp, each with a level of positive
quantity, append two distinct bars after the bars the update keeps (all of
them when the store satisfies I1): the first at time `max c (L + 1)`, which is
`c`, the second exactly one second later. -/
theorem C3_forced_separation (st : Session) (last : Bar) (d₁ d₂ : RawSnapshot)
    (lv₁ lv₂ : List PriceLevel)
    (hlast : st.history.getLast? = some last) (ht : d₂.timestamp = d₁.timestamp)
    (hl₁ : d₁.levels = some lv₁) (hl₂ : d₂.levels = some lv₂)
    (hq₁ : ∃ l ∈ lv₁, 0 < l.quantity) (hq₂ : ∃ l ∈ lv₂, 0 < l.quantity)
    (hc : last.time < currentTimeOf d₁) :
    ∃ b₁ b₂ : Bar,
      (fetchDepth st d₁).history = keptBars st.history (currentTimeOf d₁) ++ [b₁] ∧
        (fetchDepth (fetchDepth st d₁) d₂).history =
          keptBars st.history (currentTimeOf d₁) ++ [b₁, b₂] ∧
        b₁.time = max (currentTimeOf d₁) (last.time + 1) ∧
        b₂.time = b₁.time + 1 ∧ b₁ ≠ b₂ ∧
        (I1 st.history → keptBars st.history (currentTimeOf d₁) = st.history) := by
  have hL := lastTimeOf_of_getLast hlast
  have ht' : currentTimeOf d₂ = currentTimeOf d₁ := by simp [currentTimeOf, ht]
  obtain ⟨h₁, h₂⟩ := fetchDepth_twice st d₁ d₂ lv₁ lv₂ ht' hl₁ hl₂
    (appends_of_positive lv₁ d₁ hq₁) (appends_of_positive lv₂ d₂ hq₂) (by omega)
  refine ⟨_, _, h₁, h₂, ?_, ?_, ?_, ?_⟩
  · rw [dataPoint_time]
    exact (max_eq_left (by omega)).symm
  · rw [dataPoint_time, dataPoint_time]
  · intro h
    have := congrArg Bar.time h
    rw [dataPoint_time, dataPoint_time] at this
    omega
  · intro hI
    exact keptBars_of_I1 hI _ (by omega)

/-- C3 at its own example: `L = 1000`, timestamp 1001000 gives bars at 1001
and 1002. -/
theorem C3_forced_separation_witness :
    ∃ b₁ b₂ : Bar,
      (fetchDepth storeAt1000 (bidUpdate 1001000)).history =
          keptBars storeAt1000.history (currentTimeOf (bidUpdate 1001000)) ++ [b₁] ∧
        (fetchDepth (fetchDepth storeAt1000 (bidUpdate 1001000)) (bidUpdate 1001000)).history =
          keptBars storeAt1000.history (currentTimeOf (bidUpdate 1001000)) ++ [b₁, b₂] ∧
        b₁.time = max (currentTimeOf (bidUpdate 1001000)) ((emptyBar 1000).time + 1) ∧
        b₂.time = b₁.time + 1 ∧ b₁ ≠ b₂ ∧
        (I1 storeAt1000.history →
          keptBars storeAt1000.history (currentTimeOf (bidUpdate 1001000)) =
            storeAt1000.history) :=
  C3_forced_separation storeAt1000 (emptyBar 1000) (bidUpdate 1001000) (bidUpdate 1001000)
    _ _ rfl rfl rfl rfl
    ⟨_, List.mem_singleton_self _, by decide⟩ ⟨_, List.mem_singleton_self _, by decide⟩
    (by decide)

/-- C4, as stated, fails: from the store ending at 1000, after two updates
stamped 1001000 ms the bars are at 1000, 1001 and 1002, and the third update
with the same timestamp is rejected as stale: it returns the session
unchanged, so it is not resolved to any time. -/
theorem C4_counterexample :
    (fetchDepth (fetchDepth storeAt1000 (bidUpdate 1001000)) (bidUpdate 1001000)).history.map
        Bar.time = [1000, 1001, 1002] ∧
      fetchDepth (fetchDepth (fetchDepth storeAt1000 (bidUpdate 1001000)) (bidUpdate 1001000))
          (bidUpdate 1001000) =
        fetchDepth (fetchDepth storeAt1000 (bidUpdate 1001000)) (bidUpdate 1001000) :=
  ⟨by decide, fetchDepth_stale _ _ (by decide)⟩

/-- C4 (repeated separation, amended): starting from a store whose last bar
has time 1000, when live updates all carrying the raw timestamp 1001000 (each
with a positive-quantity level) are applied one after another, the first
appends a bar at time 1001, the second appends a bar at time 1002 (after the
bars the update keeps, all of them when the store satisfies I1), and the third
and every later one is rejected as stale and changes nothing. -/
theorem C4_repeated_separation (st : Session) (last : Bar) (d₁ d₂ : RawSnapshot)
    (lv₁ lv₂ : List PriceLevel) (more : List RawSnapshot)
    (hlast : st.history.getLast? = some last) (hL : last.time = 1000)
    (ht₁ : d₁.timestamp = 1001000) (ht₂ : d₂.timestamp = 1001000)
    (htm : ∀ d ∈ more, d.timestamp = 1001000)
    (hl₁ : d₁.levels = some lv₁) (hl₂ : d₂.levels = some lv₂)
    (hq₁ : ∃ l ∈ lv₁, 0 < l.quantity) (hq₂ : ∃ l ∈ lv₂, 0 < l.quantity) :
    ∃ b₁ b₂ : Bar,
      b₁.time = 1001 ∧ b₂.time = 1002 ∧
        (fetchDepth st d₁).history = keptBars st.history 1001 ++ [b₁] ∧
        (fetchDepth (fetchDepth st d₁) d₂).history = keptBars st.history 1001 ++ [b₁, b₂] ∧
        more.foldl fetchDepth (fetchDepth (fetchDepth st d₁) d₂) =
          fetchDepth (fetchDepth st d₁) d₂ ∧
        (I1 st.history → keptBars st.history 1001 = st.history) := by
  have hlt := lastTimeOf_of_getLast hlast
  have hc₁ : currentTimeOf d₁ = 1001 := by simp [currentTimeOf, ht₁]
  have hc₂ : currentTimeOf d₂ = 1001 := by simp [currentTimeOf, ht₂]
  obtain ⟨h₁, h₂⟩ := fetchDepth_twice st d₁ d₂ lv₁ lv₂ (by rw [hc₁, hc₂]) hl₁ hl₂
    (appends_of_positive lv₁ d₁ hq₁) (appends_of_positive lv₂ d₂ hq₂) (by omega)
  rw [hc₁] at h₁ h₂
  refine ⟨_, _, ?_, ?_, h₁, h₂, ?_, ?_⟩
  · rw [dataPoint_time]
  · rw [dataPoint_time]; rfl
  · apply foldl_fetchDepth_stale
    intro d hd
    have hcd : currentTimeOf d = 1001 := by simp [currentTimeOf, htm d hd]
    have hlast₂ : lastTimeOf (fetchDepth (fetchDepth st d₁) d₂).history = 1002 := by
      rw [h₂]
      have e : keptBars st.history 1001 ++ [dataPoint 1001 (liveCells lv₁) d₁,
          dataPoint (1001 + 1) (liveCells lv₂) d₂] =
          (keptBars st.history 1001 ++ [dataPoint 1001 (liveCells lv₁) d₁]) ++
            [dataPoint (1001 + 1) (liveCells lv₂) d₂] := by simp
      rw [e, lastTimeOf_append_singleton, dataPoint_time]; rfl
    omega
  · intro hI
    exact keptBars_of_I1 hI _ (by omega)

/-- C4 at the store ending at 1000, with the third and fourth repetition. -/
theorem C4_repeated_separation_witness :
    ∃ b₁ b₂ : Bar,
      b₁.time = 1001 ∧ b₂.time = 1002 ∧
        (fetchDepth storeAt1000 (bidUpdate 1001000)).history =
          keptBars storeAt1000.history 1001 ++ [b₁] ∧
        (fetchDepth (fetchDepth storeAt1000 (bidUpdate 1001000)) (bidUpdate 1001000)).history =
          keptBars storeAt1000.history 1001 ++ [b₁, b₂] ∧
        [bidUpdate 1001000, bidUpdate 1001000].foldl fetchDepth
            (fetchDepth (fetchDepth storeAt1000 (bidUpdate 1001000)) (bidUpdate 1001000)) =
          fetchDepth (fetchDepth storeAt1000 (bidUpdate 1001000)) (bidUpdate 1001000) ∧
        (I1 storeAt1000.history → keptBars storeAt1000.history 1001 = storeAt1000.history) :=
  C4_repeated_separation storeAt1000 (emptyBar 1000) (bidUpdate 1001000) (bidUpdate 1001000)
    _ _ [bidUpdate 1001000, bidUpdate 1001000] rfl rfl rfl rfl
    (by intro d hd; simp at hd; rw [hd]; rfl) rfl rfl
    ⟨_, List.mem_singleton_self _, by decide⟩ ⟨_, List.mem_singleton_self _, by decide⟩

/-- C5 (end-to-end scenario): in auto mode (`lockMode = 0`), the bulk import of
the single snapshot `scenarioHist` followed by the live update `scenarioLive`
yields exactly the two bars of the scenario, and the band installed on the
series is `{minValue: 9.009, maxValue: 11.011}`. -/
theorem C5_end_to_end (st : Session) (hmode : st.lockMode = 0) :
    (runSession st [scenarioHist] [scenarioLive]).history =
        [{ time := 1000, cells := [{ low := 10, high := 10.01, amount := 5 }],
           lastPrice := some 10, lastSize := some 2 },
         { time := 1002,
           cells := [{ low := 10, high := 10.01, amount := 7 },
             { low := 10.01, high := 10.02, amount := -3 }],
           lastPrice := some 10.01, lastSize := some 1 }] ∧
      (runSession st [scenarioHist] [scenarioLive]).provider =
        some { minValue := 9.009, maxValue := 11.011 } := by
  have hh : (fetchHist st [scenarioHist]).history =
      [{ time := 1000, cells := [{ low := 10, high := 10.01, amount := 5 }],
         lastPrice := some 10, lastSize := some 2 }] := by
    rw [fetchHist_history]
    simp [scenarioHist, hasLevels, mapSnapshots, histCell, sideSign]
    norm_num
  have hmode' : (fetchHist st [scenarioHist]).lockMode = 0 := hmode
  have hs : ¬ currentTimeOf scenarioLive < lastTimeOf (fetchHist st [scenarioHist]).history := by
    rw [hh]; decide
  have hp : (fetchHist st [scenarioHist]).history.Pairwise timeLe :=
    timeLe_of_timeLt (fetchHist_pairwise _ _)
  have hr : resolvedTime (fetchHist st [scenarioHist]).history scenarioLive = 1002 := by
    rw [hh]; decide
  constructor
  · show (fetchDepth (fetchHist st [scenarioHist]) scenarioLive).history = _
    rw [fetchDepth_history_push _ scenarioLive _ rfl hs hp (by decide), hr, hh]
    simp [scenarioLive, liveCells, liveCell, sideSign, dataPoint]
    norm_num
  · show (fetchDepth (fetchHist st [scenarioHist]) scenarioLive).provider = _
    rw [fetchDepth_provider_accepted _ scenarioLive _ rfl hs]
    simp [hmode', scenarioLive, nullish, pctBand]
    norm_num

/-- C5 from the freshly created chart. -/
theorem C5_end_to_end_witness :
    (runSession Session.init [scenarioHist] [scenarioLive]).history =
        [{ time := 1000, cells := [{ low := 10, high := 10.01, amount := 5 }],
           lastPrice := some 10, lastSize := some 2 },
         { time := 1002,
           cells := [{ low := 10, high := 10.01, amount := 7 },
             { low := 10.01, high := 10.02, amount := -3 }],
           lastPrice := some 10.01, lastSize := some 1 }] ∧
      (runSession Session.init [scenarioHist] [scenarioLive]).provider =
        some { minValue := 9.009, maxValue := 11.011 } :=
  C5_end_to_end Session.init rfl

/-- C6 (band formula exactness): for every trade price `p`, `pctBand p` is
`{minValue: max(0, min(p - 0.05, p * 0.9)), maxValue: max(p + 0.05, p * 1.1)}`
over exact rational arithmetic, its `minValue` is never negative, and
`band(100) = {90, 110}`, `band(0.3) = {0.25, 0.35}`,
`band(1000) = {900, 1100}`, `band(0.02) = {0, 0.07}`. -/
theorem C6_band_formula (p : ℚ) :
    (pctBand p).minValue = max 0 (min (p - 5 / 100) (p * (9 / 10))) ∧
      (pctBand p).maxValue = max (p + 5 / 100) (p * (11 / 10)) ∧
      0 ≤ (pctBand p).minValue ∧
      pctBand 100 = { minValue := 90, maxValue := 110 } ∧
      pctBand 0.3 = { minValue := 0.25, maxValue := 0.35 } ∧
      pctBand 1000 = { minValue := 900, maxValue := 1100 } ∧
      pctBand 0.02 = { minValue := 0, maxValue := 0.07 } := by
  refine ⟨?_, ?_, ?_, ?_, ?_, ?_, ?_⟩
  · simp only [pctBand]; norm_num
  · simp only [pctBand]; norm_num
  · exact le_max_left _ _
  · simp only [pctBand]; norm_num
  · simp only [pctBand]; norm_num
  · simp only [pctBand]; norm_num
  · simp only [pctBand]; norm_num

/-- C7 (bulk import time assignment): for every input sequence of raw
snapshots, `fetchHist` keeps exactly the snapshots whose `levels` is present
and non-empty, emits one bar per kept snapshot in input order (bar `i` carries
the cells and trade fields of kept snapshot `i`), gives bar `i` the floored
timestamp if that exceeds the time of bar `i - 1` (taken as `0` before the
first bar, the start value of `lastTime`) and that time plus one otherwise,
and the resulting list replaces the history whatever it held before. -/
theorem C7_bulk_import (st st' : Session) (snapshots : List RawSnapshot) :
    (∀ s, hasLevels s = true ↔ ∃ ls, s.levels = some ls ∧ ls ≠ []) ∧
      (fetchHist st snapshots).history.length = (snapshots.filter hasLevels).length ∧
      (∀ (i : ℕ) (s : RawSnapshot), (snapshots.filter hasLevels).get? i = some s →
        ∃ b, (fetchHist st snapshots).history.get? i = some b ∧
          b.time = specBarTime (previousTime 0 (fetchHist st snapshots).history i) s ∧
          b.cells = (s.levels.getD []).map histCell ∧
          b.lastPrice = s.last_price ∧ b.lastSize = s.last_size) ∧
      (fetchHist st snapshots).history = (fetchHist st' snapshots).history := by
  refine ⟨?_, ?_, ?_, ?_⟩
  · intro s
    unfold hasLevels
    cases s.levels with
    | none => simp
    | some ls => simp
  · rw [fetchHist_history, mapSnapshots_length]
  · intro i s hs
    rw [fetchHist_history]
    exact mapSnapshots_get 0 _ i s hs
  · rw [fetchHist_history, fetchHist_history]

/-- C8 (sign convention and cell construction): in the bulk import and in the
live update alike, a level `{price, quantity, side}` turned into a cell gives
`low = price`, `high = price + 0.01`, `amount = +quantity` for side `BID` and
`-quantity` for side `ASK`; the cells of every imported bar are the cells of
its snapshot's levels in the order of the levels, and the bar pushed by an
accepted live update carries the cells of its levels of positive quantity, in
the order of the levels.  E.g. `{10, 5, BID}` gives amount `+5` and
`{10, 3, ASK}` gives amount `-3`. -/
theorem C8_sign_convention (st : Session) (snapshots : List RawSnapshot) (d : RawSnapshot)
    (levels : List PriceLevel) (hl : d.levels = some levels)
    (hs : ¬ currentTimeOf d < lastTimeOf st.history)
    (ha : appends (liveCells levels) d = true) :
    (∀ l : PriceLevel,
        (histCell l).low = l.price ∧ (histCell l).high = l.price + 1 / 100 ∧
          (l.side = "BID" → (histCell l).amount = l.quantity) ∧
          (l.side = "ASK" → (histCell l).amount = -l.quantity)) ∧
      (∀ l : PriceLevel,
        (liveCell l).low = l.price ∧ (liveCell l).high = l.price + 1 / 100 ∧
          (l.side = "BID" → (liveCell l).amount = l.quantity) ∧
          (l.side = "ASK" → (liveCell l).amount = -l.quantity)) ∧
      (fetchHist st snapshots).history.map Bar.cells =
        (snapshots.filter hasLevels).map (fun s => (s.levels.getD []).map histCell) ∧
      (∃ b, (fetchDepth st d).history.getLast? = some b ∧
        b.cells = (levels.filter (fun l => decide (0 < l.quantity))).map liveCell) ∧
      (histCell { price := 10, quantity := 5, side := "BID" }).amount = 5 ∧
      (histCell { price := 10, quantity := 3, side := "ASK" }).amount = -3 ∧
      (liveCell { price := 10, quantity := 5, side := "BID" }).amount = 5 ∧
      (liveCell { price := 10, quantity := 3, side := "ASK" }).amount = -3 := by
  refine ⟨?_, ?_, ?_, ?_, by decide, by decide, by decide, by decide⟩
  · intro l
    refine ⟨rfl, ?_, ?_, ?_⟩
    · simp only [histCell]; norm_num
    · intro h; simp [histCell, sideSign, h]
    · intro h; simp [histCell, sideSign, h]
  · intro l
    refine ⟨rfl, ?_, ?_, ?_⟩
    · simp only [liveCell]; norm_num
    · intro h; simp [liveCell, sideSign, h]
    · intro h; simp [liveCell, sideSign, h]
  · rw [fetchHist_history, mapSnapshots_cells]
  · refine ⟨dataPoint (resolvedTime st.history d) (liveCells levels) d, ?_, ?_⟩
    · rw [fetchDepth_history_push_any st d levels hl hs ha]
      simp
    · rw [dataPoint_cells]; rfl

/-- C8 at the store ending at 1000 and a bid update stamped 1001000 ms. -/
theorem C8_sign_convention_witness :
    (∀ l : PriceLevel,
        (histCell l).low = l.price ∧ (histCell l).high = l.price + 1 / 100 ∧
          (l.side = "BID" → (histCell l).amount = l.quantity) ∧
          (l.side = "ASK" → (histCell l).amount = -l.quantity)) ∧
      (∀ l : PriceLevel,
        (liveCell l).low = l.price ∧ (liveCell l).high = l.price + 1 / 100 ∧
          (l.side = "BID" → (liveCell l).amount = l.quantity) ∧
          (l.side = "ASK" → (liveCell l).amount = -l.quantity)) ∧
      (fetchHist storeAt1000 [scenarioHist]).history.map Bar.cells =
        ([scenarioHist].filter hasLevels).map (fun s => (s.levels.getD []).map histCell) ∧
      (∃ b, (fetchDepth storeAt1000 (bidUpdate 1001000)).history.getLast? = some b ∧
        b.cells = ([{ price := 10, quantity := 5, side := "BID" }].filter
          (fun l => decide (0 < l.quantity))).map liveCell) ∧
      (histCell { price := 10, quantity := 5, side := "BID" }).amount = 5 ∧
      (histCell { price := 10, quantity := 3, side := "ASK" }).amount = -3 ∧
      (liveCell { price := 10, quantity := 5, side := "BID" }).amount = 5 ∧
      (liveCell { price := 10, quantity := 3, side := "ASK" }).amount = -3 :=
  C8_sign_convention storeAt1000 [scenarioHist] (bidUpdate 1001000) _ rfl (by decide)
    (by decide)

/-- C9, as stated, fails for a trade size that is present and zero: from the
store ending at 1000 (which satisfies I1), an accepted update whose only level
has quantity 0 and whose `last_size` is `0` appends no bar. -/
theorem C9_counterexample :
    I1 storeAt1000.history ∧
      zeroSizeUpdate.levels = some [{ price := 10, quantity := 0, side := "BID" }] ∧
      ¬ currentTimeOf zeroSizeUpdate < lastTimeOf storeAt1000.history ∧
      zeroSizeUpdate.last_size = some 0 ∧
      (fetchDepth storeAt1000 zeroSizeUpdate).history = storeAt1000.history := by
  refine ⟨List.chain'_singleton _, rfl, by decide, rfl, ?_⟩
  rw [fetchDepth_history_of_sorted storeAt1000 zeroSizeUpdate _ rfl (by decide)
    (List.pairwise_singleton _ _)]
  rfl

/-- C9 (live append condition, amended): for every live update that is not
rejected as stale, cells are built only from the levels with `quantity > 0`;
no bar is appended (the stored bars are only re-sorted) exactly when the
resulting cells are empty and `last_size` is absent or zero; in every other
case (some level has `quantity > 0`, or `last_size` is present and not zero)
exactly one bar, with time `max(currentTime, lastStoredTime + 1)` and those
cells, is appended after the bars the update keeps.  On a store satisfying I1
the re-sort moves nothing and every bar is kept. -/
theorem C9_live_append (st : Session) (d : RawSnapshot) (levels : List PriceLevel)
    (hl : d.levels = some levels) (hs : ¬ currentTimeOf d < lastTimeOf st.history) :
    liveCells levels = (levels.filter (fun l => decide (0 < l.quantity))).map liveCell ∧
      ((liveCells levels = [] ∧ (d.last_size = none ∨ d.last_size = some 0)) →
        (fetchDepth st d).history = sortByTime st.history) ∧
      (¬ (liveCells levels = [] ∧ (d.last_size = none ∨ d.last_size = some 0)) →
        ∃ b, (fetchDepth st d).history =
            keptBars st.history (max (currentTimeOf d) (lastTimeOf st.history + 1)) ++ [b] ∧
          b.time = max (currentTimeOf d) (lastTimeOf st.history + 1) ∧
          b.cells = liveCells levels) ∧
      (¬ (liveCells levels = [] ∧ (d.last_size = none ∨ d.last_size = some 0)) ↔
        ((∃ l ∈ levels, 0 < l.quantity) ∨ ∃ n : ℤ, n ≠ 0 ∧ d.last_size = some n)) ∧
      (I1 st.history → sortByTime st.history = st.history ∧
        keptBars st.history (max (currentTimeOf d) (lastTimeOf st.history + 1)) =
          st.history) := by
  have hiff : ¬ (liveCells levels = [] ∧ (d.last_size = none ∨ d.last_size = some 0)) ↔
      appends (liveCells levels) d = true := by
    unfold appends
    cases hsz : d.last_size with
    | none => simp [truthy, List.length_pos]
    | some n => simp [truthy, List.length_pos]; tauto
  refine ⟨rfl, ?_, ?_, ?_, ?_⟩
  · intro hno
    have ha : ¬ appends (liveCells levels) d = true := fun h => (hiff.2 h) hno
    exact fetchDepth_history_skip st d levels hl hs ha
  · intro hyes
    refine ⟨dataPoint (resolvedTime st.history d) (liveCells levels) d, ?_, ?_, ?_⟩
    · exact fetchDepth_history_push_any st d levels hl hs (hiff.1 hyes)
    · rw [dataPoint_time]; rfl
    · rw [dataPoint_cells]
  · rw [hiff, appends_iff]
  · intro hI
    have hp := timeLe_of_timeLt ((I1_iff_pairwise _).1 hI)
    exact ⟨sortByTime_of_sorted hp, keptBars_of_sorted hp d⟩

/-- C9 at the store ending at 1000 and a bid update stamped 1001000 ms. -/
theorem C9_live_append_witness :
    liveCells [{ price := 10, quantity := 5, side := "BID" }] =
        ([{ price := 10, quantity := 5, side := "BID" }].filter
          (fun l => decide (0 < l.quantity))).map liveCell ∧
      ((liveCells [{ price := 10, quantity := 5, side := "BID" }] = [] ∧
          ((bidUpdate 1001000).last_size = none ∨ (bidUpdate 1001000).last_size = some 0)) →
        (fetchDepth storeAt1000 (bidUpdate 1001000)).history =
          sortByTime storeAt1000.history) ∧
      (¬ (liveCells [{ price := 10, quantity := 5, side := "BID" }] = [] ∧
          ((bidUpdate 1001000).last_size = none ∨ (bidUpdate 1001000).last_size = some 0)) →
        ∃ b, (fetchDepth storeAt1000 (bidUpdate 1001000)).history =
            keptBars storeAt1000.history (max (currentTimeOf (bidUpdate 1001000))
              (lastTimeOf storeAt1000.history + 1)) ++ [b] ∧
          b.time = max (currentTimeOf (bidUpdate 1001000))
            (lastTimeOf storeAt1000.history + 1) ∧
          b.cells = liveCells [{ price := 10, quantity := 5, side := "BID" }]) ∧
      (¬ (liveCells [{ price := 10, quantity := 5, side := "BID" }] = [] ∧
          ((bidUpdate 1001000).last_size = none ∨ (bidUpdate 1001000).last_size = some 0)) ↔
        ((∃ l ∈ [({ price := 10, quantity := 5, side := "BID" } : PriceLevel)],
            0 < l.quantity) ∨
          ∃ n : ℤ, n ≠ 0 ∧ (bidUpdate 1001000).last_size = some n)) ∧
      (I1 storeAt1000.history → sortByTime storeAt1000.history = storeAt1000.history ∧
        keptBars storeAt1000.history (max (currentTimeOf (bidUpdate 1001000))
          (lastTimeOf storeAt1000.history + 1)) = storeAt1000.history) :=
  C9_live_append storeAt1000 (bidUpdate 1001000) _ rfl (by decide)

/-- C10 (trade-price cache update): for every live update that has a `levels`
field and is not rejected as stale, if the body carries a `last_price` the
cached `lastPrice` equals that price afterwards, and if it carries none the
cached `lastPrice` is unchanged; neither depends on whether a bar was
appended. -/
theorem C10_trade_price_cache (st : Session) (d : RawSnapshot) (levels : List PriceLevel)
    (hl : d.levels = some levels) (hs : ¬ currentTimeOf d < lastTimeOf st.history) :
    (∀ p, d.last_price = some p → (fetchDepth st d).lastPrice = some p) ∧
      (d.last_price = none → (fetchDepth st d).lastPrice = st.lastPrice) := by
  rw [fetchDepth_lastPrice_accepted st d levels hl hs]
  constructor
  · intro p hp; rw [hp]; rfl
  · intro hn; rw [hn]; rfl

/-- C10 at an update that appends no bar yet carries a price: the cache takes
the price 10. -/
theorem C10_trade_price_cache_witness :
    (∀ p, zeroSizeUpdate.last_price = some p →
        (fetchDepth storeAt1000 zeroSizeUpdate).lastPrice = some p) ∧
      (zeroSizeUpdate.last_price = none →
        (fetchDepth storeAt1000 zeroSizeUpdate).lastPrice = storeAt1000.lastPrice) :=
  C10_trade_price_cache storeAt1000 zeroSizeUpdate _ rfl (by decide)

/-! ## Lemmas on the view state -/

theorem fetchDepth_lockMode (st : Session) (d : RawSnapshot) :
    (fetchDepth st d).lockMode = st.lockMode := by
  cases hl : d.levels with
  | none => rw [fetchDepth_no_levels st d hl]
  | some levels =>
    by_cases hs : currentTimeOf d < lastTimeOf st.history
    · rw [fetchDepth_stale st d hs]
    · simp only [fetchDepth, hl, hs, if_false]

/-- The flag after an accepted update (lines 181-191). -/
theorem fetchDepth_initialDone_accepted (st : Session) (d : RawSnapshot)
    (levels : List PriceLevel) (hl : d.levels = some levels)
    (hs : ¬ currentTimeOf d < lastTimeOf st.history) :
    (fetchDepth st d).initialDone =
      if (!st.initialDone && (nullish d.last_price st.lastPrice).isSome) then true
      else st.initialDone := by
  simp only [fetchDepth, hl, hs, if_false]

/-- No live update clears the flag once it is set. -/
theorem fetchDepth_initialDone_of_true (st : Session) (d : RawSnapshot)
    (h : st.initialDone = true) : (fetchDepth st d).initialDone = true := by
  cases hl : d.levels with
  | none => rw [fetchDepth_no_levels st d hl]; exact h
  | some levels =>
    by_cases hs : currentTimeOf d < lastTimeOf st.history
    · rw [fetchDepth_stale st d hs]; exact h
    · rw [fetchDepth_initialDone_accepted st d levels hl hs]
      split_ifs
      · rfl
      · exact h

/-- In mode 1 with the flag set a live update leaves the provider alone. -/
theorem fetchDepth_provider_manual (st : Session) (d : RawSnapshot)
    (h : st.initialDone = true) (hm : st.lockMode = 1) :
    (fetchDepth st d).provider = st.provider := by
  cases hl : d.levels with
  | none => rw [fetchDepth_no_levels st d hl]
  | some levels =>
    by_cases hs : currentTimeOf d < lastTimeOf st.history
    · rw [fetchDepth_stale st d hs]
    · rw [fetchDepth_provider_accepted st d levels hl hs]
      simp [hm, h]

theorem foldl_fetchDepth_initialDone (updates : List RawSnapshot) (st : Session)
    (h : st.initialDone = true) : (updates.foldl fetchDepth st).initialDone = true := by
  induction updates generalizing st with
  | nil => exact h
  | cons d rest ih => exact ih (fetchDepth st d) (fetchDepth_initialDone_of_true st d h)

theorem foldl_fetchDepth_provider_manual (updates : List RawSnapshot) (st : Session)
    (h : st.initialDone = true) (hm : st.lockMode = 1) :
    (updates.foldl fetchDepth st).provider = st.provider := by
  induction updates generalizing st with
  | nil => rfl
  | cons d rest ih =>
    have h₁ := ih (fetchDepth st d) (fetchDepth_initialDone_of_true st d h)
      (by rw [fetchDepth_lockMode]; exact hm)
    simp only [List.foldl_cons]
    rw [h₁, fetchDepth_provider_manual st d h hm]

/-! ## Claims on the view state -/

/-- C11 (auto recomputation): in auto mode (`lockMode = 0`), after every live
update that has a `levels` field and is not rejected as stale, the cached
price is the one updated by that body (`d.last_price ?? lastPrice`), and if it
is present the provider installed on the series is `pctBand` of it. -/
theorem C11_auto_recomputation (st : Session) (d : RawSnapshot) (levels : List PriceLevel)
    (p : ℚ) (hmode : st.lockMode = 0) (hl : d.levels = some levels)
    (hs : ¬ currentTimeOf d < lastTimeOf st.history)
    (hp : (fetchDepth st d).lastPrice = some p) :
    (fetchDepth st d).lastPrice = nullish d.last_price st.lastPrice ∧
      (fetchDepth st d).provider = some (pctBand p) := by
  have hlp := fetchDepth_lastPrice_accepted st d levels hl hs
  refine ⟨hlp, ?_⟩
  rw [hlp] at hp
  rw [fetchDepth_provider_accepted st d levels hl hs, hp]
  simp [hmode]

/-- C11 at the store ending at 1000 and the live update of the scenario, whose
price is 10.01. -/
theorem C11_auto_recomputation_witness :
    (fetchDepth storeAt1000 scenarioLive).lastPrice =
        nullish scenarioLive.last_price storeAt1000.lastPrice ∧
      (fetchDepth storeAt1000 scenarioLive).provider = some (pctBand 10.01) :=
  C11_auto_recomputation storeAt1000 scenarioLive _ 10.01 rfl rfl (by decide) rfl

/-- C12 (one-shot initial zoom): a (re)load clears the flag and the cached
price; in either mode, as long as the flag is clear an accepted live update
after which no cached price is available leaves flag and provider as they
were, and the first one after which a cached price `p` is available installs
`pctBand p` and sets the flag; once set the flag stays set under every later
sequence of live updates, and in manual mode (`lockMode = 1`) those updates
leave the provider as it is. -/
theorem C12_initial_zoom (st₀ st : Session) (symbol : String) (d : RawSnapshot)
    (levels : List PriceLevel) (p : ℚ) (later : List RawSnapshot)
    (hsym : symbol ≠ "") (hflag : st.initialDone = false)
    (hl : d.levels = some levels) (hs : ¬ currentTimeOf d < lastTimeOf st.history)
    (hp : (fetchDepth st d).lastPrice = some p) :
    ((symbolEffect symbol st₀).initialDone = false ∧
        (symbolEffect symbol st₀).lastPrice = none) ∧
      (∀ (s : Session) (u : RawSnapshot), s.initialDone = false →
        (fetchDepth s u).lastPrice = none →
        (fetchDepth s u).initialDone = false ∧ (fetchDepth s u).provider = s.provider) ∧
      ((fetchDepth st d).provider = some (pctBand p) ∧
        (fetchDepth st d).initialDone = true) ∧
      (later.foldl fetchDepth (fetchDepth st d)).initialDone = true ∧
      ((fetchDepth st d).lockMode = 1 →
        (later.foldl fetchDepth (fetchDepth st d)).provider = (fetchDepth st d).provider) := by
  have hlp := fetchDepth_lastPrice_accepted st d levels hl hs
  rw [hlp] at hp
  have hprov : (fetchDepth st d).provider = some (pctBand p) := by
    rw [fetchDepth_provider_accepted st d levels hl hs, hp]
    simp [hflag]
  have hdone : (fetchDepth st d).initialDone = true := by
    rw [fetchDepth_initialDone_accepted st d levels hl hs, hp]
    simp [hflag]
  refine ⟨?_, ?_, ⟨hprov, hdone⟩, foldl_fetchDepth_initialDone later _ hdone, ?_⟩
  · simp [symbolEffect, hsym]
  · intro s u hf hn
    cases hlu : u.levels with
    | none => rw [fetchDepth_no_levels s u hlu]; exact ⟨hf, rfl⟩
    | some lv =>
      by_cases hsu : currentTimeOf u < lastTimeOf s.history
      · rw [fetchDepth_stale s u hsu]; exact ⟨hf, rfl⟩
      · rw [fetchDepth_lastPrice_accepted s u lv hlu hsu] at hn
        rw [fetchDepth_initialDone_accepted s u lv hlu hsu,
          fetchDepth_provider_accepted s u lv hlu hsu, hn]
        simp [hf]
  · intro hm
    exact foldl_fetchDepth_provider_manual later _ hdone hm

/-- C12 after a reload of the scenario session: history import, then the
live update of the scenario (price 10.01), then two more live updates. -/
theorem C12_initial_zoom_witness :
    ((symbolEffect "AAPL" scenarioSession).initialDone = false ∧
        (symbolEffect "AAPL" scenarioSession).lastPrice = none) ∧
      (∀ (s : Session) (u : RawSnapshot), s.initialDone = false →
        (fetchDepth s u).lastPrice = none →
        (fetchDepth s u).initialDone = false ∧ (fetchDepth s u).provider = s.provider) ∧
      ((fetchDepth (fetchHist (symbolEffect "AAPL" scenarioSession) [scenarioHist])
            scenarioLive).provider = some (pctBand 10.01) ∧
        (fetchDepth (fetchHist (symbolEffect "AAPL" scenarioSession) [scenarioHist])
            scenarioLive).initialDone = true) ∧
      ([bidUpdate 1003000, bidUpdate 1004000].foldl fetchDepth
          (fetchDepth (fetchHist (symbolEffect "AAPL" scenarioSession) [scenarioHist])
            scenarioLive)).initialDone = true ∧
      ((fetchDepth (fetchHist (symbolEffect "AAPL" scenarioSession) [scenarioHist])
            scenarioLive).lockMode = 1 →
        ([bidUpdate 1003000, bidUpdate 1004000].foldl fetchDepth
            (fetchDepth (fetchHist (symbolEffect "AAPL" scenarioSession) [scenarioHist])
              scenarioLive)).provider =
          (fetchDepth (fetchHist (symbolEffect "AAPL" scenarioSession) [scenarioHist])
            scenarioLive).provider) :=
  C12_initial_zoom scenarioSession
    (fetchHist (symbolEffect "AAPL" scenarioSession) [scenarioHist]) "AAPL" scenarioLive _
    10.01 [bidUpdate 1003000, bidUpdate 1004000] (by decide) rfl rfl (by decide) rfl

/-- C13 at the scenario session (two stored bars, cached price 10.01, initial
zoom done, auto mode): the lock-mode effect alone keeps history, cached price
and flag, but the toggle with the effects it triggers ends with an empty
history, no cached price and the flag cleared. -/
theorem C13_toggle_resets_data :
    (scenarioSession.history.map Bar.time = [1000, 1002] ∧
        scenarioSession.lastPrice = some 10.01 ∧ scenarioSession.initialDone = true ∧
        scenarioSession.lockMode = 0) ∧
      ((lockModeEffect (setLockMode scenarioSession)).history = scenarioSession.history ∧
        (lockModeEffect (setLockMode scenarioSession)).lastPrice = scenarioSession.lastPrice ∧
        (lockModeEffect (setLockMode scenarioSession)).initialDone =
          scenarioSession.initialDone) ∧
      ((toggleLockMode "AAPL" scenarioSession).lockMode = 1 ∧
        (toggleLockMode "AAPL" scenarioSession).history = [] ∧
        (toggleLockMode "AAPL" scenarioSession).lastPrice = none ∧
        (toggleLockMode "AAPL" scenarioSession).initialDone = false) := by
  refine ⟨⟨by decide, rfl, by decide, by decide⟩, ⟨rfl, rfl, rfl⟩,
    ⟨by decide, by decide, by decide, by decide⟩⟩

/-- C14 at a reload of a fresh chart: a poll of the interval answered while
the historical request is still in flight stores a bar at 1001; the bulk import
that completes afterwards replaces the history by the single imported bar at
1000, so the live bar is overwritten. -/
theorem C14_history_overwrites_live :
    (fetchDepth (symbolEffect "AAPL" Session.init) (bidUpdate 1001000)).history.map
        Bar.time = [1001] ∧
      (fetchHist (fetchDepth (symbolEffect "AAPL" Session.init) (bidUpdate 1001000))
        [scenarioHist]).history.map Bar.time = [1000] := by
  decide

/-! ## Lemmas on the renderer -/

theorem markerStep_sizes (i : ℕ) (bar : Option RenderBar) (last : Option ℤ) :
    (markerStep i bar last).2.map Marker.lastSize =
      specDrawnSize (bar.bind markerCandidate) last := by
  unfold markerStep specDrawnSize markerCandidate
  cases bar with
  | none => rfl
  | some b =>
    cases ho : b.originalData with
    | none => simp [ho]
    | some o =>
      cases hc : o.cells <;> cases hs : o.lastSize <;> cases hp : o.lastPrice <;>
        simp [ho, hc, hs, hp]
      split_ifs <;> simp

theorem markerStep_state (i : ℕ) (bar : Option RenderBar) (last : Option ℤ) :
    (markerStep i bar last).1 =
      match bar.bind markerCandidate with
      | none => last
      | some s => some s := by
  unfold markerStep markerCandidate
  cases bar with
  | none => rfl
  | some b =>
    cases ho : b.originalData with
    | none => simp [ho]
    | some o =>
      cases hc : o.cells <;> cases hs : o.lastSize <;> cases hp : o.lastPrice <;>
        simp [ho, hc, hs, hp]
      split_ifs with h
      · exact h.symm
      · rfl

theorem markerStep_cases (i : ℕ) (bar : Option RenderBar) (last : Option ℤ) :
    markerStep i bar last = (last, []) ∨
      ∃ m : Marker, markerStep i bar last = (some m.lastSize, [m]) := by
  unfold markerStep
  cases bar with
  | none => left; rfl
  | some b =>
    cases ho : b.originalData with
    | none => left; simp [ho]
    | some o =>
      cases hc : o.cells <;> cases hs : o.lastSize <;> cases hp : o.lastPrice <;>
        simp [ho, hc, hs, hp]
      by_cases h : some ‹ℤ› = last
      · left; simp [h]
      · right; exact ⟨{ index := i, lastSize := ‹ℤ›, lastPrice := ‹ℚ› }, by simp [h]⟩

theorem candidateSizes_succ (bars : List RenderBar) (i n : ℕ) :
    candidateSizes bars i (n + 1) =
      match (bars.get? i).bind markerCandidate with
      | none => candidateSizes bars (i + 1) n
      | some s => s :: candidateSizes bars (i + 1) n := by
  unfold candidateSizes
  rw [List.range'_succ, List.filterMap_cons]
  cases (bars.get? i).bind markerCandidate <;> rfl

theorem destutter'_head (t : ℤ) (l : List ℤ) :
    l.destutter' (· ≠ ·) t = t :: (l.destutter' (· ≠ ·) t).tail := by
  induction l with
  | nil => rfl
  | cons h l ih =>
    rw [List.destutter'_cons]
    split_ifs
    · rfl
    · exact ih

/-- The sizes stamped by the loop are the candidate sizes with runs of equal
consecutive values collapsed. -/
theorem drawLoop_sizes (bars : List RenderBar) (n i : ℕ) (last : Option ℤ) :
    (drawLoop bars i n last).map Marker.lastSize =
      collapseRuns last (candidateSizes bars i n) := by
  induction n generalizing i last with
  | zero =>
    cases last <;> rfl
  | succ n ih =>
    rw [candidateSizes_succ]
    simp only [drawLoop, List.map_append, markerStep_sizes, ih, markerStep_state]
    cases hc : (bars.get? i).bind markerCandidate with
    | none => simp [specDrawnSize]
    | some s =>
      cases last with
      | none =>
        simp only [specDrawnSize, collapseRuns, List.destutter_cons']
        rw [destutter'_head s]
        simp
      | some t =>
        simp only [specDrawnSize, collapseRuns, List.destutter'_cons]
        by_cases hst : s = t
        · subst hst
          simp
        · have hts : t ≠ s := fun h => hst h.symm
          simp only [ne_eq, Option.some.injEq, hst, not_false_eq_true, if_true, hts,
            List.tail_cons]
          rw [destutter'_head s]
          simp

theorem drawLoop_succ_sizes (bars : List RenderBar) (n i : ℕ) (last : Option ℤ) :
    (drawLoop bars i (n + 1) last).map Marker.lastSize =
      (drawLoop bars i n last).map Marker.lastSize ++
        specDrawnSize ((bars.get? (i + n)).bind markerCandidate)
          (lastSizeDrawnAfter bars i n last) := by
  induction n generalizing i last with
  | zero => simp [drawLoop, lastSizeDrawnAfter, markerStep_sizes]
  | succ n ih =>
    have h := ih (i + 1) (markerStep i (bars.get? i) last).1
    have e : i + 1 + n = i + (n + 1) := by omega
    rw [e] at h
    show (_ ++ drawLoop bars (i + 1) (n + 1) _).map Marker.lastSize = _
    rw [List.map_append, h]
    simp [drawLoop, lastSizeDrawnAfter, List.append_assoc]

/-- The variable `lastSizeDrawn` holds the size of the most recently drawn
bubble, or its start value when none was drawn. -/
theorem lastSizeDrawnAfter_eq (bars : List RenderBar) (n i : ℕ) (last : Option ℤ) :
    lastSizeDrawnAfter bars i n last =
      match (drawLoop bars i n last).getLast?.map Marker.lastSize with
      | some s => some s
      | none => last := by
  induction n generalizing i last with
  | zero => rfl
  | succ n ih =>
    show lastSizeDrawnAfter bars (i + 1) n (markerStep i (bars.get? i) last).1 =
      match ((markerStep i (bars.get? i) last).2 ++
        drawLoop bars (i + 1) n (markerStep i (bars.get? i) last).1).getLast?.map
          Marker.lastSize with
      | some s => some s
      | none => last
    rw [ih]
    cases hr : (drawLoop bars (i + 1) n (markerStep i (bars.get? i) last).1).getLast? with
    | some m =>
      have hne : drawLoop bars (i + 1) n (markerStep i (bars.get? i) last).1 ≠ [] := by
        intro h0; rw [h0] at hr; simp at hr
      rw [List.getLast?_append_of_ne_nil _ hne, hr]
      rfl
    | none =>
      have h0 : drawLoop bars (i + 1) n (markerStep i (bars.get? i) last).1 = [] :=
        List.getLast?_eq_none_iff.1 hr
      rw [h0, List.append_nil]
      rcases markerStep_cases i (bars.get? i) last with h | ⟨m, h⟩
      · rw [h]; rfl
      · rw [h]; rfl

theorem candidateSizes_cons (b : RenderBar) (bars : List RenderBar) (n i : ℕ) :
    candidateSizes (b :: bars) (i + 1) n = candidateSizes bars i n := by
  induction n generalizing i with
  | zero => rfl
  | succ n ih =>
    rw [candidateSizes_succ, candidateSizes_succ, ih (i + 1)]
    simp

/-- Over the whole array the candidates are the bars that carry `cells` and
both trade fields, in order. -/
theorem candidateSizes_all (bars : List RenderBar) :
    candidateSizes bars 0 bars.length = bars.filterMap markerCandidate := by
  induction bars with
  | nil => rfl
  | cons b bars ih =>
    rw [List.length_cons, candidateSizes_succ, candidateSizes_cons, ih]
    cases hb : markerCandidate b <;> simp [hb]

/-! ## Claims on the renderer and the coordinate helpers -/

/-- C15 (consecutive-marker dedup): for every array of bars and visible range,
the sizes of the bubbles drawn, left to right, are the sizes of the visible
bars that carry `cells` and both trade fields, with runs of equal consecutive
values collapsed; extending the range by one bar draws a bubble for that bar
exactly when it carries both fields and its size differs from the size of the
most recently drawn bubble (none at the start of the frame); a history bar
qualifies exactly when both `lastPrice` and `lastSize` are present; and sizes
`[50, 50, 75]` draw exactly two bubbles, 50 then 75. -/
theorem C15_marker_dedup (bars : List RenderBar) (vFrom vTo : ℕ) :
    (drawMarkers bars vFrom vTo).map Marker.lastSize =
        (candidateSizes bars vFrom (vTo - vFrom)).destutter (· ≠ ·) ∧
      (vFrom ≤ vTo →
        (drawMarkers bars vFrom (vTo + 1)).map Marker.lastSize =
          (drawMarkers bars vFrom vTo).map Marker.lastSize ++
            specDrawnSize ((bars.get? vTo).bind markerCandidate)
              ((drawMarkers bars vFrom vTo).getLast?.map Marker.lastSize)) ∧
      (drawMarkers bars 0 bars.length).map Marker.lastSize =
        (bars.filterMap markerCandidate).destutter (· ≠ ·) ∧
      (∀ (x : ℚ) (b : Bar) (s : ℤ), markerCandidate (b.toRenderBar x) = some s ↔
        b.lastSize = some s ∧ ∃ p, b.lastPrice = some p) ∧
      drawMarkers [tradeBar 50, tradeBar 50, tradeBar 75] 0 3 =
        [{ index := 0, lastSize := 50, lastPrice := 10 },
         { index := 2, lastSize := 75, lastPrice := 10 }] := by
  refine ⟨?_, ?_, ?_, ?_, ?_⟩
  · exact drawLoop_sizes bars (vTo - vFrom) vFrom none
  · intro hle
    have e₁ : vTo + 1 - vFrom = (vTo - vFrom) + 1 := by omega
    have e₂ : vFrom + (vTo - vFrom) = vTo := by omega
    have h := drawLoop_succ_sizes bars (vTo - vFrom) vFrom none
    rw [e₂, lastSizeDrawnAfter_eq] at h
    unfold drawMarkers
    rw [e₁, h]
    congr 2
    cases ((drawLoop bars vFrom (vTo - vFrom) none).getLast?.map Marker.lastSize) <;> rfl
  · have h := drawLoop_sizes bars (bars.length - 0) 0 none
    rw [Nat.sub_zero, candidateSizes_all] at h
    exact h
  · intro x b s
    unfold markerCandidate Bar.toRenderBar
    cases hs : b.lastSize <;> cases hp : b.lastPrice <;> simp
  · rfl

/-- C16 (seam-free bars): for every bar centre `x`, half bar spacing `h ≥ 0`
and pixel ratio `r > 0`, `fullBarWidth x h r` has
`position = round((x - h) * r)` and
`length = round((x + h) * r) - round((x - h) * r) ≥ 0`, and its right edge
`position + length` is the position of the adjacent bar
`fullBarWidth (x + 2 * h) h r`; `round` is the nearest integer, halves up. -/
theorem C16_seam_free (x h r : ℚ) (hh : 0 ≤ h) (hr : 0 < r) :
    (∀ q : ℚ, (jsRound q : ℚ) ≤ q + 1 / 2 ∧ q - 1 / 2 < jsRound q) ∧
      (fullBarWidth x h r).position = jsRound ((x - h) * r) ∧
      (fullBarWidth x h r).length = jsRound ((x + h) * r) - jsRound ((x - h) * r) ∧
      0 ≤ (fullBarWidth x h r).length ∧
      (fullBarWidth x h r).position + (fullBarWidth x h r).length =
        (fullBarWidth (x + 2 * h) h r).position := by
  refine ⟨?_, rfl, rfl, ?_, ?_⟩
  · intro q
    unfold jsRound
    have h₁ := Int.floor_le (q + 1 / 2)
    have h₂ := Int.lt_floor_add_one (q + 1 / 2)
    constructor
    · exact h₁
    · linarith
  · have hle : (x - h) * r ≤ (x + h) * r :=
      mul_le_mul_of_nonneg_right (by linarith) (le_of_lt hr)
    have hm : jsRound ((x - h) * r) ≤ jsRound ((x + h) * r) := by
      unfold jsRound
      exact Int.floor_mono (by linarith)
    show 0 ≤ jsRound ((x + h) * r) - jsRound ((x - h) * r)
    omega
  · show jsRound ((x - h) * r) + (jsRound ((x + h) * r) - jsRound ((x - h) * r)) =
      jsRound ((x + 2 * h - h) * r)
    have e : (x + 2 * h - h) * r = (x + h) * r := by ring
    rw [e]
    omega

/-- C16 at centre 10, half spacing 3/2 and pixel ratio 3/2. -/
theorem C16_seam_free_witness :
    (∀ q : ℚ, (jsRound q : ℚ) ≤ q + 1 / 2 ∧ q - 1 / 2 < jsRound q) ∧
      (fullBarWidth 10 (3 / 2) (3 / 2)).position = jsRound ((10 - 3 / 2) * (3 / 2)) ∧
      (fullBarWidth 10 (3 / 2) (3 / 2)).length =
        jsRound ((10 + 3 / 2) * (3 / 2)) - jsRound ((10 - 3 / 2) * (3 / 2)) ∧
      0 ≤ (fullBarWidth 10 (3 / 2) (3 / 2)).length ∧
      (fullBarWidth 10 (3 / 2) (3 / 2)).position + (fullBarWidth 10 (3 / 2) (3 / 2)).length =
        (fullBarWidth (10 + 2 * (3 / 2)) (3 / 2) (3 / 2)).position :=
  C16_seam_free 10 (3 / 2) (3 / 2) (by norm_num) (by norm_num)

/-- C17 (pixel box): for every pair of media coordinates `a`, `b` and pixel
ratio `r`, `positionsBox a b r` has
`position = min(round(r * a), round(r * b))` and
`length = |round(r * b) - round(r * a)| + 1`; swapping `a` and `b` gives the
same box, `length ≥ 1`, and `position + length - 1` is
`max(round(r * a), round(r * b))`. -/
theorem C17_pixel_box (a b r : ℚ) :
    (positionsBox a b r).position = min (jsRound (r * a)) (jsRound (r * b)) ∧
      (positionsBox a b r).length = |jsRound (r * b) - jsRound (r * a)| + 1 ∧
      positionsBox a b r = positionsBox b a r ∧
      1 ≤ (positionsBox a b r).length ∧
      (positionsBox a b r).position + (positionsBox a b r).length - 1 =
        max (jsRound (r * a)) (jsRound (r * b)) := by
  refine ⟨rfl, rfl, ?_, ?_, ?_⟩
  · simp only [positionsBox]
    rw [min_comm, abs_sub_comm]
  · show 1 ≤ |jsRound (r * b) - jsRound (r * a)| + 1
    have := abs_nonneg (jsRound (r * b) - jsRound (r * a))
    omega
  · show min (jsRound (r * a)) (jsRound (r * b)) + (|jsRound (r * b) - jsRound (r * a)| + 1) - 1 =
      max (jsRound (r * a)) (jsRound (r * b))
    rcases le_total (jsRound (r * a)) (jsRound (r * b)) with hab | hab
    · rw [min_eq_left hab, max_eq_right hab, abs_of_nonneg (by omega)]
      omega
    · rw [min_eq_right hab, max_eq_left hab, abs_of_nonpos (by omega)]
      omega

/-- C18 (append-only steady state): for every history satisfying I1 and every
live update that is accepted and pushes a bar, the new history is the old one
with the single new bar added at the end: the defensive filter of bars with
`time > ts` removes nothing and the sort moves nothing; likewise the final
sort of the bulk import leaves the mapped bars in their input order. -/
theorem C18_append_only (st : Session) (d : RawSnapshot) (levels : List PriceLevel)
    (snapshots : List RawSnapshot) (hI : I1 st.history) (hl : d.levels = some levels)
    (hs : ¬ currentTimeOf d < lastTimeOf st.history)
    (ha : appends (liveCells levels) d = true) :
    (fetchDepth st d).history =
        st.history ++ [dataPoint (resolvedTime st.history d) (liveCells levels) d] ∧
      st.history.filter (fun h => decide (h.time ≤ resolvedTime st.history d)) =
        st.history ∧
      sortByTime (st.history ++ [dataPoint (resolvedTime st.history d) (liveCells levels) d]) =
        st.history ++ [dataPoint (resolvedTime st.history d) (liveCells levels) d] ∧
      sortByTime (mapSnapshots 0 (snapshots.filter hasLevels)) =
        mapSnapshots 0 (snapshots.filter hasLevels) ∧
      (fetchHist st snapshots).history = mapSnapshots 0 (snapshots.filter hasLevels) := by
  have hp := (I1_iff_pairwise _).1 hI
  have hw := timeLe_of_timeLt hp
  refine ⟨fetchDepth_history_push st d levels hl hs hw ha,
    filter_resolvedTime_of_sorted hw d, ?_, ?_, fetchHist_history st snapshots⟩
  · apply sortByTime_of_sorted
    apply timeLe_of_timeLt
    apply pairwise_append_later hp
    rw [dataPoint_time]
    have h₂ : lastTimeOf st.history + 1 ≤ resolvedTime st.history d := le_max_right _ _
    omega
  · exact sortByTime_of_sorted (timeLe_of_timeLt (mapSnapshots_ascending 0 _).2)

/-- C18 at the store ending at 1000, a bid update stamped 1001000 ms and the
bulk import of the scenario snapshot. -/
theorem C18_append_only_witness :
    (fetchDepth storeAt1000 (bidUpdate 1001000)).history =
        storeAt1000.history ++
          [dataPoint (resolvedTime storeAt1000.history (bidUpdate 1001000))
            (liveCells [{ price := 10, quantity := 5, side := "BID" }]) (bidUpdate 1001000)] ∧
      storeAt1000.history.filter
          (fun h => decide (h.time ≤ resolvedTime storeAt1000.history (bidUpdate 1001000))) =
        storeAt1000.history ∧
      sortByTime (storeAt1000.history ++
          [dataPoint (resolvedTime storeAt1000.history (bidUpdate 1001000))
            (liveCells [{ price := 10, quantity := 5, side := "BID" }]) (bidUpdate 1001000)]) =
        storeAt1000.history ++
          [dataPoint (resolvedTime storeAt1000.history (bidUpdate 1001000))
            (liveCells [{ price := 10, quantity := 5, side := "BID" }]) (bidUpdate 1001000)] ∧
      sortByTime (mapSnapshots 0 ([scenarioHist].filter hasLevels)) =
        mapSnapshots 0 ([scenarioHist].filter hasLevels) ∧
      (fetchHist storeAt1000 [scenarioHist]).history =
        mapSnapshots 0 ([scenarioHist].filter hasLevels) :=
  C18_append_only storeAt1000 (bidUpdate 1001000) _ [scenarioHist]
    (List.chain'_singleton _) rfl (by decide) (by decide)

/-! ## `priceValueBuilder` -/

theorem foldl_priceLoopStep_some (cs : List Cell) (low high : ℚ) :
    ∃ l h : ℚ, cs.foldl priceLoopStep (some low, some high) = (some l, some h) := by
  induction cs generalizing low high with
  | nil => exact ⟨low, high, rfl⟩
  | cons c cs ih =>
    simp only [List.foldl_cons, priceLoopStep]
    split_ifs <;> exact ih _ _

/-- C19 at the first bar of the end-to-end scenario, cells
`[{low: 10, high: 10.01}]`: `priceValueBuilder` returns `[10, 10.01, 15]`; its
third value is not the midpoint 10.005 and lies above `high`.  For every
non-empty list of cells the third value is `low + low / 2`; without cells the
result is `[NaN]`. -/
theorem C19_mid_is_not_midpoint :
    priceValueBuilder (some [{ low := 10, high := 10.01, amount := 5 }]) =
        PriceValues.values 10 10.01 15 ∧
      (15 : ℚ) ≠ (10 + 10.01) / 2 ∧ ¬ ((15 : ℚ) ≤ 10.01) ∧
      (∀ (c : Cell) (cs : List Cell), ∃ low high : ℚ,
        priceValueBuilder (some (c :: cs)) = PriceValues.values low high (low + low / 2)) ∧
      priceValueBuilder (some []) = PriceValues.nan ∧
      priceValueBuilder none = PriceValues.nan := by
  refine ⟨?_, by norm_num, by norm_num, ?_, rfl, rfl⟩
  · simp [priceValueBuilder, priceLoopStep]
    norm_num
  · intro c cs
    obtain ⟨l, h, hf⟩ := foldl_priceLoopStep_some cs c.low c.high
    refine ⟨l, h, ?_⟩
    have hf' : (c :: cs).foldl priceLoopStep (none, none) = (some l, some h) := by
      simpa [List.foldl_cons, priceLoopStep] using hf
    simp only [priceValueBuilder, hf']
    congr 1
    ring

end Bookmap
